import Mathlib

/-!
Verification of the bioage-dashboard core (`src/src/App.jsx`) against its
natural-language specification.

The JavaScript source is shallowly embedded: numbers are modelled as exact
rationals (`ℚ`), JS strings as lists of characters (`JStr := List Char`),
byte buffers as `List ℕ`, and thrown exceptions as `Except ImportError`.
Platform primitives that the code only calls through (the raw-deflate
`DecompressionStream` and `JSON.parse`) are passed in as explicit function
parameters; every theorem about code paths that never reach them quantifies
over those parameters.
-/

namespace BioAge

/-- JS strings are modelled as lists of characters. -/
abbrev JStr := List Char

/-- Shorthand turning a Lean string literal into the `JStr` model. -/
def js (s : String) : JStr := s.data

/-- The `sex` values used throughout the source (`"female"`/`"male"`). -/
inductive Sex
  | female
  | male
deriving DecidableEq, Repr

/-- The ethnicity ids of the `ETHNICITIES` table. -/
inductive Eth
  | general
  | south_asian
  | black_african
  | hispanic
  | east_asian
deriving DecidableEq, Repr

/-- The metric ids: the keys of the `MB` table (`MK = Object.keys(MB)`). -/
inductive MetricId
  | vo2max
  | rhr
  | bp
  | glucose
  | bodyfat
deriving DecidableEq, Repr

/-- `MK = Object.keys(MB)`, in insertion order. -/
def MK : List MetricId := [.vo2max, .rhr, .bp, .glucose, .bodyfat]

/-- The metric-id strings, as used in entry ids and `byMD` keys. -/
def mdStr : MetricId → JStr
  | .vo2max => js "vo2max"
  | .rhr => js "rhr"
  | .bp => js "bp"
  | .glucose => js "glucose"
  | .bodyfat => js "bodyfat"

/-- One scoring band (`{label, lo, hi, c}` in `MB`; colour and label are
presentation-only and are not part of the embedding). -/
structure Band where
  lo : ℚ
  hi : ℚ
deriving DecidableEq, Repr

/-- The sex-resolved metric definition: the fields of `MB[id]` merged with
`MB[id][sex]`, as produced by `getM` (before ethnicity adjustment). -/
structure MDef where
  higherIsBetter : Bool
  dp : ℕ
  optMin : ℚ
  optMax : ℚ
  cMin : ℚ
  cMax : ℚ
  ranges : List Band
deriving DecidableEq, Repr

/-- The `MB` table, with the sex sub-object already selected
(`base[sex]||base.female`; both sexes are present for every metric). -/
def MBsex : MetricId → Sex → MDef
  | .vo2max, .female =>
    ⟨true, 1, 38, 44, 15, 55, [⟨15, 27⟩, ⟨27, 31.5⟩, ⟨31.5, 38⟩, ⟨38, 55⟩]⟩
  | .vo2max, .male =>
    ⟨true, 1, 46, 56, 20, 70, [⟨20, 30⟩, ⟨30, 38⟩, ⟨38, 46⟩, ⟨46, 70⟩]⟩
  | .rhr, _ =>
    ⟨false, 0, 40, 60, 40, 100, [⟨40, 56⟩, ⟨56, 66⟩, ⟨66, 76⟩, ⟨76, 100⟩]⟩
  | .bp, _ =>
    ⟨false, 0, 90, 120, 90, 160, [⟨90, 120⟩, ⟨120, 130⟩, ⟨130, 140⟩, ⟨140, 160⟩]⟩
  | .glucose, _ =>
    ⟨false, 0, 60, 85, 60, 145, [⟨60, 85⟩, ⟨85, 100⟩, ⟨100, 126⟩, ⟨126, 145⟩]⟩
  | .bodyfat, .female =>
    ⟨false, 1, 14, 20, 10, 45, [⟨10, 20⟩, ⟨20, 25⟩, ⟨25, 32⟩, ⟨32, 45⟩]⟩
  | .bodyfat, .male =>
    ⟨false, 1, 6, 17, 5, 40, [⟨5, 17⟩, ⟨17, 22⟩, ⟨22, 28⟩, ⟨28, 40⟩]⟩

/-- The `adjustments[id].optMaxD` deltas of the `ETHNICITIES` table; `none`
where the table has no adjustment for the metric.  All stored deltas are
nonzero, so the source's truthiness test `if(adj?.optMaxD)` coincides with
presence in this table. -/
def ethAdjOptMaxD : Eth → MetricId → Option ℚ
  | .south_asian, .bodyfat => some (-3)
  | .south_asian, .glucose => some (-5)
  | .black_african, .bp => some (-5)
  | .black_african, .glucose => some (-5)
  | .hispanic, .glucose => some (-5)
  | .hispanic, .bodyfat => some (-2)
  | .east_asian, .bodyfat => some (-3)
  | .east_asian, .glucose => some (-3)
  | _, _ => none

/-- `getM(id, sex, eth)`: the sex-resolved definition with the ethnicity
delta applied to the optimal-range upper boundary
(`sc.opt.max = Math.max(sc.opt.min+1, sc.opt.max+adj.optMaxD)`).
`getM` returns `null` only for an unrecognized id string, which the
`MetricId` enumeration excludes. -/
def getM (id : MetricId) (sex : Sex) (eth : Eth) : MDef :=
  let sc := MBsex id sex
  match ethAdjOptMaxD eth id with
  | some d => { sc with optMax := max (sc.optMin + 1) (sc.optMax + d) }
  | none => sc

/-- The score-anchor sequence `ST = [15,45,72,100]`. -/
def ST : List ℚ := [15, 45, 72, 100]

/-- `ST[i]` (all indices used by the source are in bounds; the default is
irrelevant). -/
def stGet (i : ℕ) : ℚ := ST.getD i 0

/-- The default band used to make in-bounds list indexing total. -/
def dBand : Band := ⟨0, 0⟩

/-- The band-membership test of the loop in `getScore`:
`val>=r.lo && (i===n-1 ? val<=r.hi : val<R[i+1].lo)`. -/
def bandMatch (R : List Band) (i : ℕ) (val : ℚ) : Bool :=
  let r := (R.get? i).getD dBand
  decide (r.lo ≤ val) &&
    (if i = R.length - 1 then decide (val ≤ r.hi)
     else decide (val < ((R.get? (i + 1)).getD dBand).lo))

/-- The index of the first band accepted by the loop in `getScore`, if any. -/
def findBand (R : List Band) (val : ℚ) : Option ℕ :=
  (List.range R.length).find? (fun i => bandMatch R i val)

/-- The in-band interpolation of `getScore` (the loop body after the
membership test).  `n - 2 - i` uses saturating `ℕ` subtraction, which agrees
with the source's `Math.max(n-2-i, 0)`. -/
def bandScore (R : List Band) (hib : Bool) (val : ℚ) (i : ℕ) : ℚ :=
  let r := (R.get? i).getD dBand
  let n := R.length
  let pos := if r.lo < r.hi then (val - r.lo) / (r.hi - r.lo) else 0
  if hib then
    let s0 := stGet i
    let s1 := stGet (min (i + 1) (n - 1))
    min 100 (s0 + pos * (s1 - s0))
  else
    let s0 := stGet (n - 1 - i)
    let s1 := stGet (n - 2 - i)
    max 15 (s0 - pos * (s0 - s1))

/-- The fall-through clamp of `getScore` when no band matched:
`hib ? (val>R[n-1].hi?100:15) : (val<R[0].lo?100:15)`. -/
def outOfBandScore (R : List Band) (hib : Bool) (val : ℚ) : ℚ :=
  if hib then (if ((R.get? (R.length - 1)).getD dBand).hi < val then 100 else 15)
  else (if val < ((R.get? 0).getD dBand).lo then 100 else 15)

/-- `getScore(id, val, sex, eth)`; `val == null` is modelled by `none`. -/
def getScore (id : MetricId) (val : Option ℚ) (sex : Sex) (eth : Eth) : Option ℚ :=
  match val with
  | none => none
  | some v =>
    let m := getM id sex eth
    match findBand m.ranges v with
    | some i => some (bandScore m.ranges m.higherIsBetter v i)
    | none => some (outOfBandScore m.ranges m.higherIsBetter v)

/-- The per-metric, per-sex regression parameters of the `KDM_P` table. -/
structure KP where
  k : ℚ
  q : ℚ
  s : ℚ
deriving DecidableEq, Repr

/-- The `KDM_P` table (`p[sex]||p.female`; both sexes are present for every
metric, and every metric id is a key, so no lookup fails). -/
def KDM_P : MetricId → Sex → KP
  | .vo2max, .female => ⟨-0.38, 49, 6⟩
  | .vo2max, .male => ⟨-0.46, 60, 7.5⟩
  | .rhr, _ => ⟨0.07, 67.2, 10.5⟩
  | .bp, _ => ⟨0.45, 104.8, 15⟩
  | .glucose, _ => ⟨0.28, 78, 13⟩
  | .bodyfat, .female => ⟨0.30, 15.5, 7⟩
  | .bodyfat, .male => ⟨0.25, 8, 6.5⟩

/-- `KDM_S_BA = 7.0`, the between-person biological-age SD. -/
def KDM_S_BA : ℚ := 7

/-- `KDM_W_CA = 1/(KDM_S_BA*KDM_S_BA)`. -/
def KDM_W_CA : ℚ := 1 / (KDM_S_BA * KDM_S_BA)

/-- JS `+x.toFixed(1)`: round to the nearest tenth, ties toward plus
infinity (ES `toFixed` picks the larger candidate on a tie). -/
def round1 (x : ℚ) : ℚ := (⌊x * 10 + 1 / 2⌋ : ℤ) / 10

/-- JS `Math.round`: nearest integer, ties toward plus infinity. -/
def round0 (x : ℚ) : ℚ := (⌊x + 1 / 2⌋ : ℤ)

/-- JS `+x.toFixed(2)` (used for body-fat normalization). -/
def round2 (x : ℚ) : ℚ := (⌊x * 100 + 1 / 2⌋ : ℤ) / 100

/-- JS `+avg.toFixed(dp)` for a metric's decimal precision `dp`. -/
def roundDp (dp : ℕ) (x : ℚ) : ℚ := (⌊x * 10 ^ dp + 1 / 2⌋ : ℤ) / 10 ^ dp

/-- One step of the accumulation loop in `_kdm`: running
`(sumWI, sumW, n)`.  A metric is skipped when its value is absent or its
slope `k` is zero (`if(!k) return`). -/
def kdmStep (vm : MetricId → Option ℚ) (sex : Sex) (acc : ℚ × ℚ × ℕ)
    (id : MetricId) : ℚ × ℚ × ℕ :=
  match vm id with
  | none => acc
  | some val =>
    let p := KDM_P id sex
    if p.k = 0 then acc
    else
      (acc.1 + ((val - p.q) / p.k) * ((p.k * p.k) / (p.s * p.s)),
       acc.2.1 + (p.k * p.k) / (p.s * p.s), acc.2.2 + 1)

/-- The core `_kdm(valMap, CA, sex)` computation.  The value map is iterated
in `MK` order (the insertion order used by both of its callers).  Returns
`none` when no metric contributed (`if(!n) return null`), and otherwise the
rounded estimate clamped to `[CA-20, CA+20]`
(`Math.max(CA-20, Math.min(CA+20, +BA.toFixed(1)))`). -/
def kdm (vm : MetricId → Option ℚ) (CA : ℚ) (sex : Sex) : Option ℚ :=
  let r := MK.foldl (kdmStep vm sex) (0, 0, 0)
  if r.2.2 = 0 then none
  else
    let BA := (r.1 + CA * KDM_W_CA) / (r.2.1 + KDM_W_CA)
    some (max (CA - 20) (min (CA + 20) (round1 BA)))

/-- A health entry (`HealthEntry` in the spec).  `note` doubles as the
provenance marker (`"Apple Health"`, `"Google Fit"`, or free text for manual
entries). -/
structure HEntry where
  id : JStr
  metricId : MetricId
  value : ℚ
  secondary : Option ℚ
  date : JStr
  note : JStr
deriving DecidableEq, Repr

/-- The latest-entry selection used throughout the source:
`entries.filter(e=>e.metricId===id).sort((a,b)=>b.date.localeCompare(a.date))[0]`.
The sort is stable and descending by date, so the selected entry is the
first, in original order, among those with the lexicographically greatest
date (for ISO dates `localeCompare` agrees with code-point order). -/
def latestEntry (entries : List HEntry) (id : MetricId) : Option HEntry :=
  (entries.filter (fun e => e.metricId = id)).foldl
    (fun best e =>
      match best with
      | none => some e
      | some b => if b.date < e.date then some e else some b) none

/-- `getBioAge(entries, age, sex)`: the latest value of each metric fed to
`_kdm`. -/
def getBioAge (entries : List HEntry) (age : ℚ) (sex : Sex) : Option ℚ :=
  kdm (fun id => (latestEntry entries id).map (·.value)) age sex

/-- The directionally-best optimal boundary substituted by `getHypoBioAge`:
`m.higherIsBetter ? m.opt.max : m.opt.min`. -/
def optBoundary (id : MetricId) (sex : Sex) (eth : Eth) : ℚ :=
  let m := getM id sex eth
  if m.higherIsBetter then m.optMax else m.optMin

/-- `getHypoBioAge(entries, age, sex, eth, targetId)`: as `getBioAge` but
with the target metric's value replaced by its optimal boundary.  The
source skips ids without `KDM_P` parameters when building the map; every
`MetricId` has parameters, and `_kdm` ignores absent ids either way. -/
def getHypoBioAge (entries : List HEntry) (age : ℚ) (sex : Sex) (eth : Eth)
    (target : MetricId) : Option ℚ :=
  kdm (fun id =>
    if id = target then some (optBoundary id sex eth)
    else (latestEntry entries id).map (·.value)) age sex

/-- The gain computed per metric by `ImpactPanel` (and identically by
`renderSnapshot`): `curBA!=null&&hypBA!=null ? +(curBA-hypBA).toFixed(1) : 0`. -/
def impactGain (entries : List HEntry) (age : ℚ) (sex : Sex) (eth : Eth)
    (id : MetricId) : ℚ :=
  match getBioAge entries age sex, getHypoBioAge entries age sex eth id with
  | some cur, some hyp => round1 (cur - hyp)
  | _, _ => 0

/-- The provenance test used by `handleImport`
(`e.note!=="Apple Health"&&e.note!=="Google Fit"` keeps an entry). -/
def isImportNote (n : JStr) : Bool := n = js "Apple Health" || n = js "Google Fit"

/-- JS `Array.prototype.findIndex` plus in-place assignment, as performed by
the merge loop of `handleImport`: replace the first element satisfying the
predicate, or report that none does. -/
def replaceFirst (p : HEntry → Bool) (x : HEntry) : List HEntry → Option (List HEntry)
  | [] => none
  | e :: rest =>
    if p e then some (x :: rest)
    else (replaceFirst p x rest).map (e :: ·)

/-- One iteration of the merge loop of `handleImport`:
`const i=merged.findIndex(e=>e.metricId===x.metricId&&e.date===x.date);
if(i>=0)merged[i]=x;else merged.push(x);`. -/
def mergeStep (merged : List HEntry) (x : HEntry) : List HEntry :=
  match replaceFirst (fun e => e.metricId = x.metricId && e.date = x.date) x merged with
  | some l => l
  | none => merged ++ [x]

/-- `handleImport`: keep only entries whose note is neither `"Apple Health"`
nor `"Google Fit"`, then fold the incoming entries through the merge loop. -/
def handleImport (old ne : List HEntry) : List HEntry :=
  ne.foldl mergeStep (old.filter (fun e => !isImportNote e.note))

/-- The JS `\w` character class (`[A-Za-z0-9_]`; `Char.isAlphanum` is
ASCII-only, matching the regex class). -/
def isWordChar (c : Char) : Bool := c.isAlphanum || c = '_'

/-- The literal opening of a record element. -/
def recOpen : JStr := js "<Record"

/-- The literal closing tag of a paired record element. -/
def recClose : JStr := js "</Record>"

/-- JS `String.prototype.indexOf`: index of the first occurrence of `pat`. -/
def findSub (pat : JStr) : JStr → Option ℕ
  | [] => if pat.isEmpty then some 0 else none
  | l@(_ :: rest) =>
    if pat.isPrefixOf l then some 0
    else (findSub pat rest).map (· + 1)

/-- The body of the record regex after `<Record\b`:
`[^>]*?(?:\/>|>[\s\S]*?<\/Record>)`.  The lazy quantifier tries the
alternation at every position before consuming one more non-`>` character,
so the match ends at the first `/>`, or runs from the first bare `>` to the
first subsequent `</Record>`.  Returns the number of characters consumed. -/
def scanBody : JStr → Option ℕ
  | '/' :: '>' :: _ => some 2
  | '>' :: rest => (findSub recClose rest).map (fun j => 1 + j + recClose.length)
  | _ :: rest => (scanBody rest).map (· + 1)
  | [] => none

/-- Whether the record regex `/<Record\b[^>]*?(?:\/>|>[\s\S]*?<\/Record>)/`
matches at the start of `l`; returns the match length.  The word boundary
after `<Record` requires the next character to be a non-word character (at
end of input the boundary holds but the body cannot match). -/
def matchRecordAt (l : JStr) : Option ℕ :=
  if recOpen.isPrefixOf l then
    match l.drop 7 with
    | [] => none
    | c :: rest =>
      if isWordChar c then none
      else (scanBody (c :: rest)).map (fun j => 7 + j)
  else none

theorem matchRecordAt_pos {l : JStr} {len : ℕ}
    (h : matchRecordAt l = some len) : 0 < len := by
  unfold matchRecordAt at h
  split at h
  · split at h
    · exact absurd h (by simp)
    · split at h
      · exact absurd h (by simp)
      · obtain ⟨j, -, rfl⟩ := Option.map_eq_some'.mp h
        omega
  · exact absurd h (by simp)

/-- The scan of `re.exec` with the `g` flag: find the leftmost match, record
it together with its end position (`last=m.index+m[0].length`), and resume
at the end of the match.  `i` is the absolute index of the current suffix.
The structural `fuel` argument only makes the recursion elementary: every
step consumes at least one character, so the wrapper's fuel never runs
out. -/
def execAux : ℕ → JStr → ℕ → List JStr → ℕ → List JStr × ℕ
  | _, [], _, acc, last => (acc.reverse, last)
  | 0, _ :: _, _, acc, last => (acc.reverse, last)
  | fuel + 1, c :: rest, i, acc, last =>
    match matchRecordAt (c :: rest) with
    | some len =>
      execAux fuel ((c :: rest).drop len) (i + len) ((c :: rest).take len :: acc) (i + len)
    | none => execAux fuel rest (i + 1) acc last

/-- All matches of the record regex in the buffer, together with `last`,
the end index of the final match (`0` when there is none). -/
def execRecords (l : JStr) : List JStr × ℕ := execAux l.length l 0 [] 0

/-- The capture `([^"]*)"` after an attribute pattern: the characters up to
the next double quote, failing (no regex match at this position) when the
closing quote is missing. -/
def splitAtQuote : JStr → Option JStr
  | [] => none
  | '"' :: _ => some []
  | c :: rest => (splitAtQuote rest).map (c :: ·)

/-- Scan for the first regex match of `\b<pat>` where `pat` is
`name="`; `bok` records whether a word boundary precedes the current
position (the attribute names all start with a word character). -/
def attrAux (pat : JStr) : JStr → Bool → Option JStr
  | [], _ => none
  | l@(c :: rest), bok =>
    if bok && pat.isPrefixOf l then
      match splitAtQuote (l.drop pat.length) with
      | some v => some v
      | none => attrAux pat rest (!isWordChar c)
    else attrAux pat rest (!isWordChar c)

/-- The helper `attr(n,t)` of `parseAH`: first match of
`\bn="([^"]*)"` in `t`, returning the captured value. -/
def attr (name : JStr) (t : JStr) : Option JStr :=
  attrAux (name ++ js "=\"") t true

/-- Numeric value of an ASCII digit. -/
def digitVal (c : Char) : ℕ := c.toNat - 48

/-- Consume leading digits, accumulating their value and count. -/
def takeDigits : JStr → ℕ × ℕ → (ℕ × ℕ) × JStr
  | c :: rest, (v, n) =>
    if c.isDigit then takeDigits rest (v * 10 + digitVal c, n + 1)
    else ((v, n), c :: rest)
  | [], acc => (acc, [])

/-- JS `parseFloat` restricted to plain decimal literals
(`[ws]* [+-]? digits [. digits]`, either digit group optional but not
both): exponents, `Infinity` and hex forms do not occur in health exports
and are not modelled.  `none` models `NaN`. -/
def jsParseFloat (l : JStr) : Option ℚ :=
  let l1 := l.dropWhile (fun c => c = ' ' || c = '\t' || c = '\n' || c = '\r')
  let sl : ℚ × JStr :=
    match l1 with
    | '-' :: r => (-1, r)
    | '+' :: r => (1, r)
    | _ => (1, l1)
  let ipr := takeDigits sl.2 (0, 0)
  match ipr.2 with
  | '.' :: r =>
    let fpr := takeDigits r (0, 0)
    if ipr.1.2 = 0 ∧ fpr.1.2 = 0 then none
    else some (sl.1 * ((ipr.1.1 : ℚ) + (fpr.1.1 : ℚ) / 10 ^ fpr.1.2))
  | _ => if ipr.1.2 = 0 then none else some (sl.1 * ipr.1.1)

/-- The internal tags of the `AHT` type table (`bp_sys` and `bp_dia` are
collected separately and joined per date at the end of the pass). -/
inductive AHTag
  | vo2max
  | rhr
  | bpSys
  | bpDia
  | glucose
  | bodyfat
deriving DecidableEq, Repr

/-- The `AHT` table mapping HealthKit type identifiers to internal tags. -/
def AHT (t : JStr) : Option AHTag :=
  if t = js "HKQuantityTypeIdentifierVO2Max" then some .vo2max
  else if t = js "HKQuantityTypeIdentifierRestingHeartRate" then some .rhr
  else if t = js "HKQuantityTypeIdentifierBloodPressureSystolic" then some .bpSys
  else if t = js "HKQuantityTypeIdentifierBloodPressureDiastolic" then some .bpDia
  else if t = js "HKQuantityTypeIdentifierBloodGlucose" then some .glucose
  else if t = js "HKQuantityTypeIdentifierBodyFatPercentage" then some .bodyfat
  else none

/-- Update the value at a key of a JS-object model (an association list in
insertion order), or append the key at the end — the semantics of property
assignment and creation on a JS object with string keys. -/
def updOr {α β : Type} [DecidableEq α] (k : α) (f : β → β) (d : β) :
    List (α × β) → List (α × β)
  | [] => [(k, d)]
  | (k', v) :: rest =>
    if k' = k then (k', f v) :: rest else (k', v) :: updOr k f d rest

/-- Property assignment `o[k] = v`. -/
def upsert {α β : Type} [DecidableEq α] (k : α) (v : β)
    (l : List (α × β)) : List (α × β) :=
  updOr k (fun _ => v) v l

/-- Property lookup `o[k]`. -/
def lookupA {α β : Type} [DecidableEq α] (k : α) : List (α × β) → Option β
  | [] => none
  | (k', v) :: rest => if k' = k then some v else lookupA k rest

/-- `if(!byMD[mid])byMD[mid]={}; if(!byMD[mid][date])byMD[mid][date]=[];
byMD[mid][date].push(val);`. -/
def pushMD (mid : MetricId) (date : JStr) (v : ℚ)
    (m : List (MetricId × List (JStr × List ℚ))) :
    List (MetricId × List (JStr × List ℚ)) :=
  updOr mid (fun inner => updOr date (· ++ [v]) [v] inner) [(date, [v])] m

/-- ASCII lowercasing of a character (model of JS `toLowerCase`; all
strings this is applied to are ASCII). -/
def lowerChar (c : Char) : Char :=
  if 'A' ≤ c ∧ c ≤ 'Z' then Char.ofNat (c.toNat + 32) else c

/-- JS `String.prototype.toLowerCase` (ASCII model). -/
def lowerStr (l : JStr) : JStr := l.map lowerChar

/-- JS `String.prototype.includes`. -/
def containsSub (pat : JStr) : JStr → Bool
  | [] => pat.isEmpty
  | l@(_ :: rest) => pat.isPrefixOf l || containsSub pat rest

/-- The mutable state accumulated by `proc` across calls: the
systolic/diastolic maps keyed by date, and `byMD` keyed by metric id and
date.  During record processing `byMD` only ever holds the four numeric
metrics; blood pressure is joined from `bpS`/`bpD` separately after the
whole pass (in the source the joined lists are written into `byMD.bp`,
which then sits after the numeric keys in insertion order). -/
structure AHState where
  bpS : List (JStr × ℚ)
  bpD : List (JStr × ℚ)
  byMD : List (MetricId × List (JStr × List ℚ))
deriving DecidableEq, Repr

/-- The empty extraction state. -/
def initAH : AHState := ⟨[], [], []⟩

/-- Processing of one matched record element (the body of the `while` loop
in `proc`): read the attributes, map the type, discard unusable records,
apply unit normalization, and file the value. -/
def procRecord (st : AHState) (rec : JStr) : AHState :=
  match (attr (js "type") rec).bind AHT with
  | none => st
  | some tag =>
    let rv := (attr (js "value") rec).bind jsParseFloat
    let unit := lowerStr ((attr (js "unit") rec).getD [])
    let rd :=
      match attr (js "startDate") rec with
      | some d => if d.isEmpty then (attr (js "creationDate") rec).getD [] else d
      | none => (attr (js "creationDate") rec).getD []
    match rv with
    | none => st
    | some rv0 =>
      if rd.isEmpty then st
      else
        let date := rd.take 10
        let val1 := if tag = .bodyfat ∧ rv0 ≤ 1 then round2 (rv0 * 100) else rv0
        let val :=
          if tag = .glucose ∧ (containsSub (js "mmol") unit ∨ val1 < 25) then
            round0 (val1 * 18.0182)
          else val1
        match tag with
        | .bpSys => { st with bpS := upsert date val st.bpS }
        | .bpDia => { st with bpD := upsert date val st.bpD }
        | .vo2max => { st with byMD := pushMD .vo2max date val st.byMD }
        | .rhr => { st with byMD := pushMD .rhr date val st.byMD }
        | .glucose => { st with byMD := pushMD .glucose date val st.byMD }
        | .bodyfat => { st with byMD := pushMD .bodyfat date val st.byMD }

/-- `proc(buf)`: run the record regex over the buffer, process every match,
and return the end offset of the last regex match (recognized or not). -/
def proc (st : AHState) (buf : JStr) : AHState × ℕ :=
  let r := execRecords buf
  (r.1.foldl procRecord st, r.2)

/-- JS `buf.lastIndexOf("<Record", le)`: the greatest start index `≤ le` at
which the literal occurs, if any. -/
def lastIndexOfRec (l : JStr) (fromIdx : ℕ) : Option ℕ :=
  ((List.range (fromIdx + 1)).filter (fun i => recOpen.isPrefixOf (l.drop i))).getLast?

/-- The loop state of `readLoop`: the extraction state plus the carry-over
text buffer. -/
structure AHStream where
  st : AHState
  textBuf : JStr
deriving DecidableEq, Repr

/-- One iteration of `readLoop` for one decoded chunk:
`textBuf+=chunk; const le=proc(textBuf); const ti=textBuf.lastIndexOf("<Record",le);
textBuf=(ti!==-1&&ti>le-32768)?textBuf.slice(ti):"";`. -/
def chunkStep (s : AHStream) (chunk : JStr) : AHStream :=
  let buf := s.textBuf ++ chunk
  let r := proc s.st buf
  let buf' :=
    match lastIndexOfRec buf r.2 with
    | some ti => if (ti : ℤ) > (r.2 : ℤ) - 32768 then buf.drop ti else []
    | none => []
  ⟨r.1, buf'⟩

/-- The whole chunked pipeline at the decoded-text level: fold the decoded
chunks through `readLoop`.  (The trailing `chunkDec.decode()` flush is
empty for well-formed input, so no further `proc` call happens.) -/
def runChunked (chunks : List JStr) : AHState :=
  (chunks.foldl chunkStep ⟨initAH, []⟩).st

/-- The character of a decimal digit. -/
def digitChar (n : ℕ) : Char :=
  if n = 0 then '0' else if n = 1 then '1' else if n = 2 then '2'
  else if n = 3 then '3' else if n = 4 then '4' else if n = 5 then '5'
  else if n = 6 then '6' else if n = 7 then '7' else if n = 8 then '8' else '9'

/-- Decimal digits of a natural number, most significant first; the fuel is
structural and the wrapper always supplies enough (a number has at most as
many digits as its value). -/
def natDigitsAux : ℕ → ℕ → List Char
  | 0, n => [digitChar (n % 10)]
  | fuel + 1, n =>
    if n < 10 then [digitChar n]
    else natDigitsAux fuel (n / 10) ++ [digitChar (n % 10)]

/-- Decimal digits of a natural number, most significant first (the JS
number-to-string conversion for integers). -/
def natDigits (n : ℕ) : List Char := natDigitsAux n n

/-- JS string conversion of an integer. -/
def intStr (z : ℤ) : JStr :=
  if z < 0 then '-' :: natDigits z.natAbs else natDigits z.natAbs

/-- The number of decimal digits needed to write `q` exactly, when at most
29 suffice. -/
def decExp (q : ℚ) : Option ℕ :=
  (List.range 30).find? (fun e => (q * 10 ^ e).den = 1)

/-- JS number-to-string conversion (template-literal interpolation) for the
values that reach entry ids: exact for integers and terminating decimals,
which covers every value produced by `parseFloat`/rounding in this model. -/
def qToString (q : ℚ) : JStr :=
  if q.den = 1 then intStr q.num
  else
    match decExp q with
    | some e =>
      let N := (q * 10 ^ e).num.natAbs
      let ip := N / 10 ^ e
      let fp := N % 10 ^ e
      let fpd := natDigits fp
      (if q < 0 then ['-'] else []) ++ natDigits ip ++
        '.' :: (List.replicate (e - fpd.length) '0' ++ fpd)
    | none => intStr q.num ++ '/' :: natDigits q.den

/-- The decimal precision `MB[mid].dp` used when averaging. -/
def dpOf : MetricId → ℕ
  | .vo2max => 1
  | .rhr => 0
  | .bp => 0
  | .glucose => 0
  | .bodyfat => 1

/-- One joined blood-pressure reading (`{sys, dia}`). -/
structure BPRead where
  sys : ℚ
  dia : Option ℚ
deriving DecidableEq, Repr

/-- The date set iterated by the join:
`new Set([...Object.keys(bpS),...Object.keys(bpD)])` in insertion order. -/
def bpDates (st : AHState) : List JStr :=
  let sk := st.bpS.map (·.1)
  sk ++ (st.bpD.map (·.1)).filter (fun d => decide (d ∉ sk))

/-- The per-date systolic/diastolic join performed after the whole pass:
`if(bpS[date]){byMD.bp[date]=[{sys:bpS[date],dia:bpD[date]||null}]}`
(`bpS[date]` is truthy iff present and nonzero; a zero diastolic becomes
`null`). -/
def bpJoin (st : AHState) : List (JStr × BPRead) :=
  (bpDates st).filterMap (fun d =>
    match lookupA d st.bpS with
    | some sys =>
      if sys ≠ 0 then
        some (d, ⟨sys,
          match lookupA d st.bpD with
          | some dia => if dia = 0 then none else some dia
          | none => none⟩)
      else none
    | none => none)

/-- `vals.reduce((a,b)=>a+b,0)/vals.length`. -/
def avgOf (vals : List ℚ) : ℚ := vals.sum / vals.length

/-- The numeric entries built from `byMD` (every non-bp group). -/
def ahNumericEntries (st : AHState) : List HEntry :=
  st.byMD.flatMap (fun g =>
    g.2.map (fun dv =>
      { id := js "ah_" ++ mdStr g.1 ++ '_' :: dv.1,
        metricId := g.1, value := roundDp (dpOf g.1) (avgOf dv.2),
        secondary := none, date := dv.1, note := js "Apple Health" }))

/-- The blood-pressure entries built from the joined readings
(`if(v.sys)` guards again; `secondary` is `undefined` when diastolic is
absent). -/
def ahBpEntries (st : AHState) : List HEntry :=
  (bpJoin st).filterMap (fun dr =>
    if dr.2.sys ≠ 0 then
      some { id := js "ah_bp_" ++ dr.1 ++ '_' :: qToString dr.2.sys,
             metricId := .bp, value := round0 dr.2.sys,
             secondary := dr.2.dia.map round0, date := dr.1,
             note := js "Apple Health" }
    else none)

/-- The error taxonomy of the ingestion boundary (each constructor models
one of the thrown `Error` values). -/
inductive ImportError
  | archiveFormat
  | entryNotFound
  | invalidLocalHeader
  | unsupportedCompression (method : ℕ)
  | noDataFilesFound
  | noMatchingRecords
  | decompression
deriving DecidableEq, Repr

/-- The full entry list assembled by `parseAH` (numeric groups in `byMD`
insertion order, then the blood-pressure group appended by the join). -/
def ahAssemble (st : AHState) : List HEntry := ahNumericEntries st ++ ahBpEntries st

/-- The tail of `parseAH`: assemble entries and fail with
`NoMatchingRecordsError` when none were extracted.  (The `counts` map and
the detected sex/date-of-birth of the source's return value are elided:
no claim concerns them.) -/
def ahResult (st : AHState) : Except ImportError (List HEntry) :=
  let entries := ahAssemble st
  if entries.isEmpty then .error .noMatchingRecords else .ok entries

/-- `parseAH` on already-decoded text processed in one piece (the stored
and raw-XML paths). -/
def parseAHText (text : JStr) : Except ImportError (List HEntry) :=
  ahResult (proc initAH text).1

/-- `parseAH` on decoded text arriving in chunks (the deflate path's
`readLoop`). -/
def parseAHChunked (chunks : List JStr) : Except ImportError (List HEntry) :=
  ahResult (runChunked chunks)

/-- `msFromNano`: the BigInt path `Number(BigInt(String(ns))/1000000n)`
(truncating division; every platform with `DecompressionStream` also has
`BigInt`, so the `Math.floor` fallback is dead). -/
def msFromNano (ns : ℤ) : ℤ := Int.tdiv ns 1000000

/-- Civil date (year, month, day) of a day count relative to 1970-01-01,
proleptic Gregorian — the calendar arithmetic behind
`new Date(ms).toISOString()`. -/
def civilFromDays (z0 : ℤ) : ℤ × ℕ × ℕ :=
  let z := z0 + 719468
  let era : ℤ := Int.fdiv z 146097
  let doe : ℕ := (z - era * 146097).toNat
  let yoe : ℕ := (doe - doe / 1460 + doe / 36524 - doe / 146096) / 365
  let y : ℤ := (yoe : ℤ) + era * 400
  let doy : ℕ := doe - (365 * yoe + yoe / 4 - yoe / 100)
  let mp : ℕ := (5 * doy + 2) / 153
  let d : ℕ := doy - (153 * mp + 2) / 5 + 1
  let m : ℕ := if mp < 10 then mp + 3 else mp + 3 - 12
  (if m ≤ 2 then y + 1 else y, m, d)

/-- Left-pad with a character to a given width. -/
def padLeft (c : Char) (w : ℕ) (s : List Char) : List Char :=
  List.replicate (w - s.length) c ++ s

/-- `new Date(ms).toISOString().substring(0,10)`: the UTC calendar date
`YYYY-MM-DD` (years 0–9999; export timestamps are all well inside this). -/
def dateFromMs (ms : ℤ) : JStr :=
  let c := civilFromDays (Int.fdiv ms 86400000)
  padLeft '0' 4 (natDigits c.1.toNat) ++
    '-' :: (padLeft '0' 2 (natDigits c.2.1) ++ '-' :: padLeft '0' 2 (natDigits c.2.2))

/-- One element of a data point's `fitValue` array (only the `fpVal` and
`intVal` fields are read). -/
structure FitVal where
  fpVal : Option ℚ
  intVal : Option ℚ
deriving DecidableEq, Repr

/-- One Google Fit data point, with the fields read by `procJSON`
(`pt.dataTypeName||""` means an absent type name is the empty string;
nanosecond timestamps are modelled as numbers, `none` when absent). -/
structure DataPoint where
  dataTypeName : JStr
  startTimeNanos : Option ℤ
  endTimeNanos : Option ℤ
  fitValue : List FitVal
deriving DecidableEq, Repr

/-- The `GFT` table mapping Google Fit data type names to metric ids. -/
def GFT (t : JStr) : Option MetricId :=
  if t = js "com.google.heart_rate.bpm" then some .rhr
  else if t = js "com.google.blood_pressure" then some .bp
  else if t = js "com.google.blood_glucose.level" then some .glucose
  else if t = js "com.google.body.fat.percentage" then some .bodyfat
  else if t = js "com.google.fitness.vo2max" then some .vo2max
  else if t = js "com.google.vo2max" then some .vo2max
  else none

/-- The filename-substring fallback for unlabelled data (the filename has
already been lowercased by the caller). -/
def fnameFallback (fname : JStr) : Option MetricId :=
  if containsSub (js "heart_rate") fname then some .rhr
  else if containsSub (js "blood_pressure") fname then some .bp
  else if containsSub (js "blood_glucose") fname then some .glucose
  else if containsSub (js "body_fat") fname || containsSub (js "body.fat") fname then
    some .bodyfat
  else if containsSub (js "vo2") fname then some .vo2max
  else none

/-- JS numeric truthiness on an optional number (`0` and absent are falsy). -/
def truthyInt : Option ℤ → Option ℤ
  | some n => if n = 0 then none else some n
  | none => none

/-- `const ns = pt.startTimeNanos || pt.endTimeNanos || ""; if(!ns) return;`. -/
def pickNanos (pt : DataPoint) : Option ℤ :=
  match truthyInt pt.startTimeNanos with
  | some n => some n
  | none => truthyInt pt.endTimeNanos

/-- The accumulation state of `parseGF`: `byMD` (numeric metrics) and the
per-date blood-pressure reading lists (`bpByDate[date].push(...)`). -/
structure GFState where
  byMD : List (MetricId × List (JStr × List ℚ))
  bpByDate : List (JStr × List BPRead)
deriving DecidableEq, Repr

/-- The empty Google Fit state. -/
def initGF : GFState := ⟨[], []⟩

/-- The blood-pressure reading pushed by `procJSON`:
`{sys:Math.round(sys), dia:dia?Math.round(dia):undefined}`. -/
def mkBPRead (sys : ℚ) (dia : Option ℚ) : BPRead :=
  ⟨round0 sys,
   match dia with
   | some d => if d = 0 then none else some (round0 d)
   | none => none⟩

/-- Processing of one data point (the `pts.forEach` body of `procJSON`). -/
def procPoint (fname : JStr) (st : GFState) (pt : DataPoint) : GFState :=
  let mid? :=
    match GFT pt.dataTypeName with
    | some m => some m
    | none => fnameFallback fname
  match mid? with
  | none => st
  | some mid =>
    match pickNanos pt with
    | none => st
    | some ns =>
      let date := dateFromMs (msFromNano ns)
      let fv := pt.fitValue
      if fv.isEmpty then st
      else if mid = .bp then
        match fv.head?.bind (·.fpVal) with
        | some sys =>
          if 0 < sys then
            let r := mkBPRead sys ((fv.get? 1).bind (·.fpVal))
            { st with bpByDate := updOr date (fun l => l ++ [r]) [r] st.bpByDate }
          else st
        | none => st
      else
        let v? :=
          match fv.head?.bind (·.fpVal) with
          | some v => some v
          | none => fv.head?.bind (·.intVal)
        match v? with
        | none => st
        | some v0 =>
          let v1 := if mid = .glucose ∧ v0 < 25 then round0 (v0 * 18.0182) else v0
          let v2 := if mid = .bodyfat ∧ v1 ≤ 1 then round2 (v1 * 100) else v1
          { st with byMD := pushMD mid date v2 st.byMD }

/-- The numeric entries built from the Google Fit `byMD`. -/
def gfNumericEntries (st : GFState) : List HEntry :=
  st.byMD.flatMap (fun g =>
    g.2.map (fun dv =>
      { id := js "gf_" ++ mdStr g.1 ++ '_' :: dv.1,
        metricId := g.1, value := roundDp (dpOf g.1) (avgOf dv.2),
        secondary := none, date := dv.1, note := js "Google Fit" }))

/-- The blood-pressure entries: every pushed reading of every date becomes
its own entry (`vals.forEach(v=>{if(v.sys)entries.push(...)})`), with the
id `gf_bp_${date}_${v.sys}`. -/
def gfBpEntries (st : GFState) : List HEntry :=
  st.bpByDate.flatMap (fun dv =>
    dv.2.filterMap (fun r =>
      if r.sys ≠ 0 then
        some { id := js "gf_bp_" ++ dv.1 ++ '_' :: qToString r.sys,
               metricId := .bp, value := r.sys, secondary := r.dia,
               date := dv.1, note := js "Google Fit" }
      else none))

/-- The entry list assembled by `parseGF` (numeric groups first, then the
blood-pressure group folded into `byMD` after them). -/
def gfAssemble (st : GFState) : List HEntry := gfNumericEntries st ++ gfBpEntries st

/-- The state after processing a list of parsed JSON documents, given as
(already-lowercased filename, data-point list) pairs — the caller invokes
`procJSON(jsonText, fname.toLowerCase())`. -/
def gfStateOf (docs : List (JStr × List DataPoint)) : GFState :=
  docs.foldl (fun st doc => doc.2.foldl (procPoint doc.1) st) initGF

/-- The tail of `parseGF`: assemble and fail with `NoMatchingRecordsError`
when no entries were extracted. -/
def gfResult (st : GFState) : Except ImportError (List HEntry) :=
  let entries := gfAssemble st
  if entries.isEmpty then .error .noMatchingRecords else .ok entries

/-- The record-extraction stage of `parseGF`, from parsed JSON documents to
the returned entries. -/
def parseGFDocs (docs : List (JStr × List DataPoint)) :
    Except ImportError (List HEntry) :=
  gfResult (gfStateOf docs)

/-- A binary buffer: the byte values of the `Uint8Array` view. -/
abbrev Bytes := List ℕ

/-- Byte read (reads performed by the source are in bounds on the paths it
takes; the default only makes the model total). -/
def u8 (b : Bytes) (o : ℕ) : ℕ := b.getD o 0

/-- `DataView.getUint16(o, true)` (little endian). -/
def u16 (b : Bytes) (o : ℕ) : ℕ := u8 b o + 256 * u8 b (o + 1)

/-- `DataView.getUint32(o, true)`. -/
def u32 (b : Bytes) (o : ℕ) : ℕ := u16 b o + 65536 * u16 b (o + 2)

/-- `Number(DataView.getBigUint64(o, true))` (exact for the sizes that
occur; the lossiness of `Number` beyond 2^53 is not modelled). -/
def u64 (b : Bytes) (o : ℕ) : ℕ := u32 b o + 4294967296 * u32 b (o + 4)

/-- ASCII lowercasing at the byte level (JS `toLowerCase` on ASCII names). -/
def lowerByte (n : ℕ) : ℕ := if 65 ≤ n ∧ n ≤ 90 then n + 32 else n

/-- ASCII lowercasing of a byte string. -/
def lowerBytes (b : Bytes) : Bytes := b.map lowerByte

/-- The ASCII bytes of a Lean string literal. -/
def strBytes (s : String) : Bytes := s.data.map (·.toNat)

/-- `TextDecoder().decode` restricted to ASCII (every filename and JSON
document in the claims is ASCII). -/
def asciiDecode (b : Bytes) : JStr := b.map Char.ofNat

/-- Substring test on byte strings (`String.prototype.includes`). -/
def containsSubB (pat : Bytes) : Bytes → Bool
  | [] => pat.isEmpty
  | l@(_ :: rest) => pat.isPrefixOf l || containsSubB pat rest

/-- The backward scan for the EOCD signature, from `i` down to `lo`
inclusive (at `i = 0` the loop guard `i >= max(0, ...)` stops after the
body, which coincides with the base case here). -/
def findEOCDAux (b : Bytes) (lo : ℕ) : ℕ → Option ℕ
  | 0 => if u32 b 0 = 0x06054b50 then some 0 else none
  | i + 1 =>
    if u32 b (i + 1) = 0x06054b50 then some (i + 1)
    else if i + 1 ≤ lo then none
    else findEOCDAux b lo i

/-- Step 1 of both ZIP readers:
`for(let i=len-22;i>=Math.max(0,len-65558);i--) if(u32(i)===0x06054b50)...`. -/
def findEOCD (b : Bytes) : Option ℕ :=
  if b.length < 22 then none
  else findEOCDAux b (b.length - 65558) (b.length - 22)

/-- Step 2 of both ZIP readers: the central-directory offset and size from
the EOCD record, preferring the ZIP64 EOCD when its locator sits 20 bytes
before the EOCD and points at a valid ZIP64 EOCD signature. -/
def resolveCD (b : Bytes) (eocd : ℕ) : ℕ × ℕ :=
  let cdOffset := u32 b (eocd + 16)
  let cdSize := u32 b (eocd + 12)
  if 20 ≤ eocd ∧ u32 b (eocd - 20) = 0x07064b50 then
    let z64off := u64 b (eocd - 20 + 8)
    if z64off < b.length ∧ u32 b z64off = 0x06064b50 then
      (u64 b (z64off + 48), u64 b (z64off + 40))
    else (cdOffset, cdSize)
  else (cdOffset, cdSize)

/-- The ZIP64 extra-field walk resolving sentineled sizes/offset; the
argument and result triples are `(uncompSize, compSize, localOff)`.  The
structural fuel only makes the recursion elementary: every step advances
`ep` by at least 4, so the wrapper's fuel never runs out. -/
def zip64ScanAux (b : Bytes) (epEnd : ℕ) : ℕ → ℕ → ℕ × ℕ × ℕ → ℕ × ℕ × ℕ
  | 0, _, v => v
  | fuel + 1, ep, v =>
    if ep + 4 ≤ epEnd then
      let eid := u16 b ep
      let esz := u16 b (ep + 2)
      let ep1 := ep + 4
      if eid = 1 then
        let r1 := if v.1 = 0xFFFFFFFF then (u64 b ep1, ep1 + 8) else (v.1, ep1)
        let r2 := if v.2.1 = 0xFFFFFFFF then (u64 b r1.2, r1.2 + 8) else (v.2.1, r1.2)
        let loc := if v.2.2 = 0xFFFFFFFF then u64 b r2.2 else v.2.2
        (r1.1, r2.1, loc)
      else zip64ScanAux b epEnd fuel (ep1 + esz) v
    else v

/-- The ZIP64 extra-field walk (`while(ep+4<=epEnd)` with a break on tag
`0x0001`). -/
def zip64Scan (b : Bytes) (epEnd : ℕ) (ep : ℕ) (v : ℕ × ℕ × ℕ) : ℕ × ℕ × ℕ :=
  zip64ScanAux b epEnd (epEnd + 1) ep v

/-- One resolved central-directory entry. -/
structure CDEntry where
  fname : Bytes
  compression : ℕ
  compSize : ℕ
  uncompSize : ℕ
  localOff : ℕ
deriving DecidableEq, Repr

/-- The central-directory walk shared by both ZIP readers: collect entries
while the signature matches, resolving ZIP64 extras, advancing by
`46+fnLen+extraLen+commentLen`.  The structural fuel only makes the
recursion elementary: every step advances `pos` by at least 46, so the
wrapper's fuel never runs out. -/
def cdWalkAux (b : Bytes) (endPos : ℕ) : ℕ → ℕ → List CDEntry
  | 0, _ => []
  | fuel + 1, pos =>
    if pos < endPos then
      if u32 b pos = 0x02014b50 then
        let compression := u16 b (pos + 10)
        let compSize := u32 b (pos + 20)
        let uncompSize := u32 b (pos + 24)
        let localOff := u32 b (pos + 42)
        let fnLen := u16 b (pos + 28)
        let extraLen := u16 b (pos + 30)
        let commentLen := u16 b (pos + 32)
        let fname := (b.drop (pos + 46)).take fnLen
        let v :=
          if compSize = 0xFFFFFFFF ∨ uncompSize = 0xFFFFFFFF ∨ localOff = 0xFFFFFFFF then
            zip64Scan b (pos + 46 + fnLen + extraLen) (pos + 46 + fnLen)
              (uncompSize, compSize, localOff)
          else (uncompSize, compSize, localOff)
        ⟨fname, compression, v.2.1, v.1, v.2.2⟩ ::
          cdWalkAux b endPos fuel (pos + 46 + fnLen + extraLen + commentLen)
      else []
    else []

/-- The walked central directory of a buffer
(`while(pos<cdOffset+cdSize)` with a break on a bad signature). -/
def cdEntries (b : Bytes) : Option (List CDEntry) :=
  (findEOCD b).map (fun e =>
    let r := resolveCD b e
    cdWalkAux b (r.1 + r.2) (r.1 + r.2 + 1) r.1)

/-- The filenames recorded in the central directory — the name list the
spec's auto-detection contract refers to (`none` when the buffer has no
EOCD record at all). -/
def centralNames (b : Bytes) : Option (List Bytes) :=
  (cdEntries b).map (List.map CDEntry.fname)

/-- The entry-name match of `parseAH`:
`fname==="apple_health_export/export.xml"||fname==="export.xml"`. -/
def isExportName (f : Bytes) : Bool :=
  f = strBytes "apple_health_export/export.xml" || f = strBytes "export.xml"

/-- Steps 1–3 of `parseAH`'s ZIP path: locate the `export.xml` entry in the
central directory (the source breaks at the first matching entry). -/
def locateAH (b : Bytes) : Except ImportError CDEntry :=
  match cdEntries b with
  | none => .error .archiveFormat
  | some es =>
    match es.find? (fun e => isExportName e.fname) with
    | none => .error .entryNotFound
    | some ent => .ok ent

/-- `parseAH`'s ZIP path.  The platform `DecompressionStream` is abstracted
by `decodedChunks`, the decoded-text chunks its reader yields for the
deflate branch; every theorem over this function quantifies over them.
Stored entries are decoded and processed in one piece. -/
def parseAHBytes (b : Bytes) (decodedChunks : List JStr) :
    Except ImportError (List HEntry) :=
  match locateAH b with
  | .error e => .error e
  | .ok ent =>
    if u32 b ent.localOff ≠ 0x04034b50 then .error .invalidLocalHeader
    else
      let lfnLen := u16 b (ent.localOff + 26)
      let lextraLen := u16 b (ent.localOff + 28)
      let dataStart := ent.localOff + 30 + lfnLen + lextraLen
      let compSlice := (b.drop dataStart).take ent.compSize
      if ent.compression = 0 then
        ahResult (proc initAH (asciiDecode compSlice)).1
      else if ent.compression = 8 then
        ahResult (runChunked decodedChunks)
      else .error (.unsupportedCompression ent.compression)

/-- The candidate filter of `parseGF`:
`(lname.includes("all data")||(lname.includes("fit")&&lname.includes("/")))
&&lname.endsWith(".json")&&compSize>0`. -/
def isFitFile (e : CDEntry) : Bool :=
  let ln := lowerBytes e.fname
  (containsSubB (strBytes "all data") ln ||
    (containsSubB (strBytes "fit") ln && containsSubB (strBytes "/") ln)) &&
    (strBytes ".json").isSuffixOf ln && decide (0 < e.compSize)

/-- The per-file stage of `parseGF`: resolve the local header (a bad
signature skips the file), decompress (method 0 reads the slice, method 8
runs the platform inflater, any other method skips the file), parse the
JSON (a parse failure skips the file), and process the data points.
`inflate` models `DecompressionStream("deflate-raw")` (`none` = malformed
stream, which rejects the whole import with a `DecompressionError`);
`jparse` models `JSON.parse` plus the `Data Points`/`dataPoints` field
access. -/
def gfFile (inflate : Bytes → Option Bytes) (jparse : JStr → Option (List DataPoint))
    (b : Bytes) (st : GFState) (ent : CDEntry) : Except ImportError GFState :=
  if u32 b ent.localOff ≠ 0x04034b50 then .ok st
  else
    let lfnLen := u16 b (ent.localOff + 26)
    let lextraLen := u16 b (ent.localOff + 28)
    let dataStart := ent.localOff + 30 + lfnLen + lextraLen
    let compSlice := (b.drop dataStart).take ent.compSize
    let text? : Except ImportError (Option JStr) :=
      if ent.compression = 0 then .ok (some (asciiDecode compSlice))
      else if ent.compression = 8 then
        match inflate compSlice with
        | some out => .ok (some (asciiDecode out))
        | none => .error .decompression
      else .ok none
    match text? with
    | .error e => .error e
    | .ok none => .ok st
    | .ok (some txt) =>
      match jparse txt with
      | none => .ok st
      | some pts => .ok (pts.foldl (procPoint (lowerStr (asciiDecode ent.fname))) st)

/-- `parseGF`'s ZIP path, parameterized by the platform inflater and JSON
parser. -/
def parseGFBytes (inflate : Bytes → Option Bytes)
    (jparse : JStr → Option (List DataPoint)) (b : Bytes) :
    Except ImportError (List HEntry) :=
  match cdEntries b with
  | none => .error .archiveFormat
  | some es =>
    let fitFiles := es.filter isFitFile
    if fitFiles.isEmpty then .error .noDataFilesFound
    else
      match fitFiles.foldlM (gfFile inflate jparse b) initGF with
      | .error e => .error e
      | .ok st => gfResult st

/-- The scan of `isGoogleFitZip`: walk local-file-header records from the
front of the buffer (`while(p<bytes.length-30)`), byte-stepping until a
header signature is found, and answer `true` as soon as a header's
filename lowercases to something containing `"fit"` and ending in
`".json"`; skipping uses the header's own compressed-size field. -/
def gfZipScan (b : Bytes) : ℕ → ℕ → Bool
  | 0, _ => false
  | fuel + 1, p =>
    if p < b.length - 30 then
      if u32 b p ≠ 0x04034b50 then gfZipScan b fuel (p + 1)
      else
        let fnLen := u16 b (p + 26)
        let exLen := u16 b (p + 28)
        let fname := lowerBytes ((b.drop (p + 30)).take fnLen)
        if containsSubB (strBytes "fit") fname && (strBytes ".json").isSuffixOf fname then
          true
        else gfZipScan b fuel (p + 30 + fnLen + exLen + u32 b (p + 18))
    else false

/-- `isGoogleFitZip(file)`: the detection pre-scan, reading at most the
first 2 MB of the file.  Note that, its own doc comment notwithstanding, it
walks local file headers from the start of the buffer rather than the
central directory.  The structural fuel only makes the loop elementary:
every step advances `p` by at least 1, so `b.length` steps always
suffice. -/
def isGoogleFitZip (b : Bytes) : Bool :=
  gfZipScan (b.take 2097152) (b.take 2097152).length 0

/-- Little-endian encoding of a 16-bit value (test-input construction). -/
def le16 (n : ℕ) : Bytes := [n % 256, n / 256 % 256]

/-- Little-endian encoding of a 32-bit value (test-input construction). -/
def le32 (n : ℕ) : Bytes :=
  [n % 256, n / 256 % 256, n / 65536 % 256, n / 16777216 % 256]

/-- A local file header for a stored entry whose size fields are written as
zero (the data-descriptor style the source's own comment attributes to iOS
exports), followed by the entry name `a.txt`. -/
def lfhStored : Bytes :=
  le32 0x04034b50 ++ le16 20 ++ le16 8 ++ le16 0 ++ le16 0 ++ le16 0 ++
    le32 0 ++ le32 0 ++ le32 0 ++ le16 5 ++ le16 0 ++ strBytes "a.txt"

/-- Stored content of `a.txt` in the first detection archive: 40 bytes that
spell out a fake local file header carrying the name `fit/x.json`. -/
def contentFit : Bytes :=
  le32 0x04034b50 ++ List.replicate 22 0 ++ le16 10 ++ le16 0 ++ strBytes "fit/x.json"

/-- Stored content of `a.txt` in the second detection archive: 40 times the
byte `z`. -/
def contentPlain : Bytes := List.replicate 40 122

/-- The shared central-directory record of the detection archives:
one stored entry `a.txt` of 40 bytes at local offset 0. -/
def cdDetect : Bytes :=
  le32 0x02014b50 ++ le16 20 ++ le16 20 ++ le16 0 ++ le16 0 ++ le16 0 ++ le16 0 ++
    le32 0 ++ le32 40 ++ le32 40 ++ le16 5 ++ le16 0 ++ le16 0 ++ le16 0 ++ le16 0 ++
    le32 0 ++ le32 0 ++ strBytes "a.txt"

/-- The shared EOCD record of the detection archives (central directory of
51 bytes at offset 75). -/
def eocdDetect : Bytes :=
  le32 0x06054b50 ++ le16 0 ++ le16 0 ++ le16 1 ++ le16 1 ++ le32 51 ++ le32 75 ++ le16 0

/-- Detection archive A: entry list `[a.txt]`, content embedding a fake
local header named `fit/x.json`. -/
def zipDetectA : Bytes := lfhStored ++ contentFit ++ cdDetect ++ eocdDetect

/-- Detection archive B: entry list `[a.txt]`, inert content of the same
length. -/
def zipDetectB : Bytes := lfhStored ++ contentPlain ++ cdDetect ++ eocdDetect

/-- An Apple-export archive whose central directory declares compression
method 12 (bzip2) for `export.xml`. -/
def appleZip12 : Bytes :=
  le32 0x04034b50 ++ le16 20 ++ le16 0 ++ le16 12 ++ le16 0 ++ le16 0 ++
    le32 0 ++ le32 4 ++ le32 4 ++ le16 10 ++ le16 0 ++ strBytes "export.xml" ++
    [1, 2, 3, 4] ++
  le32 0x02014b50 ++ le16 20 ++ le16 20 ++ le16 0 ++ le16 12 ++ le16 0 ++ le16 0 ++
    le32 0 ++ le32 4 ++ le32 4 ++ le16 10 ++ le16 0 ++ le16 0 ++ le16 0 ++ le16 0 ++
    le32 0 ++ le32 0 ++ strBytes "export.xml" ++
  le32 0x06054b50 ++ le16 0 ++ le16 0 ++ le16 1 ++ le16 1 ++ le32 56 ++ le32 44 ++ le16 0

/-- A Google Takeout archive whose single Fit JSON entry declares
compression method 12 (bzip2). -/
def gfZip12 : Bytes :=
  le32 0x04034b50 ++ le16 20 ++ le16 0 ++ le16 12 ++ le16 0 ++ le16 0 ++
    le32 0 ++ le32 5 ++ le32 5 ++ le16 29 ++ le16 0 ++
    strBytes "takeout/fit/all data/raw.json" ++ [1, 2, 3, 4, 5] ++
  le32 0x02014b50 ++ le16 20 ++ le16 20 ++ le16 0 ++ le16 12 ++ le16 0 ++ le16 0 ++
    le32 0 ++ le32 5 ++ le32 5 ++ le16 29 ++ le16 0 ++ le16 0 ++ le16 0 ++ le16 0 ++
    le32 0 ++ le32 0 ++ strBytes "takeout/fit/all data/raw.json" ++
  le32 0x06054b50 ++ le16 0 ++ le16 0 ++ le16 1 ++ le16 1 ++ le32 75 ++ le32 64 ++ le16 0

/-- The id of a manually logged entry: `Date.now()+""`, the decimal string
of the epoch-millisecond timestamp. -/
def manualId (t : ℕ) : JStr := natDigits t

instance {ε α : Type} [DecidableEq ε] [DecidableEq α] : DecidableEq (Except ε α) :=
  fun x y =>
    match x, y with
    | .ok a, .ok b =>
      if h : a = b then .isTrue (by rw [h]) else .isFalse (by simp [h])
    | .error a, .error b =>
      if h : a = b then .isTrue (by rw [h]) else .isFalse (by simp [h])
    | .ok _, .error _ => .isFalse (by simp)
    | .error _, .ok _ => .isFalse (by simp)

set_option maxRecDepth 100000

set_option maxHeartbeats 2000000

/-! ### C1 — chunked extraction versus whole-text extraction -/

/-- A well-formed decoded export fragment: one junk character followed by a
single recognized self-closing record. -/
def c1Text : JStr :=
  js "x<Record type=\"HKQuantityTypeIdentifierRestingHeartRate\" value=\"60\" unit=\"count/min\" startDate=\"2024-01-01 08:00:00 +0000\"/>"

/-- A decoded-chunk boundary falling inside the literal `<Record`. -/
def c1Chunk1 : JStr := js "x<Rec"

/-- The remainder of the decoded text after the boundary. -/
def c1Chunk2 : JStr := c1Text.drop 5

/-- The single entry the whole-text pass extracts from `c1Text`. -/
def c1Entry : HEntry :=
  ⟨js "ah_rhr_2024-01-01", .rhr, 60, none, js "2024-01-01", js "Apple Health"⟩

/-- C1: the claim demands that feeding the decoded text to the extractor in
bounded chunks (with the carry-over buffer kept between calls) yields
exactly the records of a single whole-text pass.  It fails: when a chunk
boundary splits the literal `<Record` and the buffer holds no complete
record, `proc` returns `last = 0`, `lastIndexOf("<Record", 0)` cannot see
the partial element (its start exceeds index 0), and the carry-over buffer
is reset to the empty string — the straddling record is lost.  On this
input the whole-text pass extracts one entry while the chunked pass
extracts none and the import fails with `NoMatchingRecordsError`. -/
theorem C1_chunk_boundary_loses_record :
    c1Chunk1 ++ c1Chunk2 = c1Text ∧
    parseAHText c1Text = .ok [c1Entry] ∧
    parseAHChunked [c1Chunk1, c1Chunk2] = .error .noMatchingRecords :=
  ⟨by decide, by with_unfolding_all rfl, by with_unfolding_all rfl⟩

/-! ### C2 — unsupported compression methods -/

/-- C2 (amended): the Apple single-entry variant does fail with
`UnsupportedCompressionError` carrying the numeric method whenever the
matched central-directory entry declares a method other than 0 or 8 (and
its local header is intact); the Google Fit variant, however, silently
skips such entries (`else continue`), so an archive whose only Fit JSON
entry declares method 12 fails with `NoMatchingRecordsError` instead. -/
theorem C2_unsupported_compression :
    (∀ (b : Bytes) (chunks : List JStr) (ent : CDEntry),
        locateAH b = .ok ent → u32 b ent.localOff = 0x04034b50 →
        ent.compression ≠ 0 → ent.compression ≠ 8 →
        parseAHBytes b chunks = .error (.unsupportedCompression ent.compression)) ∧
    (∀ (inflate : Bytes → Option Bytes) (jparse : JStr → Option (List DataPoint)),
        parseGFBytes inflate jparse gfZip12 = .error .noMatchingRecords) := by
  constructor
  · intro b chunks ent hloc hsig h0 h8
    unfold parseAHBytes
    rw [hloc]
    simp [hsig, h0, h8]
  · intro inflate jparse
    rfl

/-- Witness for C2: a concrete archive whose `export.xml` entry declares
method 12 is rejected with `UnsupportedCompressionError` carrying 12. -/
theorem C2_unsupported_compression_witness :
    parseAHBytes appleZip12 [] = .error (.unsupportedCompression 12) :=
  C2_unsupported_compression.1 appleZip12 []
    ⟨strBytes "export.xml", 12, 4, 4, 0⟩ (by decide) (by decide) (by decide) (by decide)

/-- C2 counterexample: the claim as stated — covering both variants —
fails on the Google Fit variant: the method-12 archive is rejected with
`NoMatchingRecordsError`, not `UnsupportedCompressionError 12`. -/
theorem C2_google_fit_skips_method :
    parseGFBytes (fun _ => none) (fun _ => none) gfZip12 =
      .error .noMatchingRecords ∧
    (ImportError.noMatchingRecords ≠ .unsupportedCompression 12) :=
  ⟨rfl, by decide⟩

/-! ### C5 — name-only format auto-detection -/

/-- The central directory of the first detection archive names exactly
`a.txt`. -/
theorem namesDetectA : centralNames zipDetectA = some [strBytes "a.txt"] := by decide

/-- The central directory of the second detection archive names exactly
`a.txt`. -/
theorem namesDetectB : centralNames zipDetectB = some [strBytes "a.txt"] := by decide

/-- C5: the spec (and the function's own comment) say detection peeks only
at central-directory filenames.  In fact `isGoogleFitZip` walks local file
headers from the front of the buffer, so bytes of stored file *content*
can be read as a header: the two archives below carry identical central
directories (single entry `a.txt`), yet the one whose content embeds a
fake local header named `fit/x.json` is detected as Google Fit and the
other is not. -/
theorem C5_detection_depends_on_content :
    centralNames zipDetectA = centralNames zipDetectB ∧
    centralNames zipDetectA = some [strBytes "a.txt"] ∧
    isGoogleFitZip zipDetectA = true ∧
    isGoogleFitZip zipDetectB = false :=
  ⟨namesDetectA.trans namesDetectB.symm, namesDetectA, rfl, rfl⟩

/-! ### C3 — impact-ranker gains -/

/-- A manual entry whose VO₂ max exceeds the female optimal boundary. -/
def c3Entry : HEntry := ⟨js "m1", .vo2max, 55, none, js "2024-01-01", js ""⟩

/-- C3 counterexample: the claim says negative gains are clamped so that a
gain is never negative.  They are not: with a VO₂ max of 55 (beyond the
female optimal boundary 44), substituting the boundary *raises* the
estimated biological age, and the gain `+(curBA-hypBA).toFixed(1)` comes
out as −4.8. -/
theorem C3_negative_gain :
    impactGain [c3Entry] 40 .female .general .vo2max = -24 / 5 ∧
    impactGain [c3Entry] 40 .female .general .vo2max < 0 := by
  constructor
  · with_unfolding_all decide
  · with_unfolding_all decide

/-- The count `n` accumulated by `_kdm` never decreases across one step. -/
theorem kdmStep_n_le (vm : MetricId → Option ℚ) (sex : Sex) (acc : ℚ × ℚ × ℕ)
    (m : MetricId) : acc.2.2 ≤ (kdmStep vm sex acc m).2.2 := by
  unfold kdmStep
  cases vm m with
  | none => exact le_refl _
  | some v =>
    dsimp only
    split
    · exact le_refl _
    · exact Nat.le_succ _

/-- The count `n` never decreases across the whole fold. -/
theorem kdmFold_n_le (vm : MetricId → Option ℚ) (sex : Sex) :
    ∀ (l : List MetricId) (acc : ℚ × ℚ × ℕ),
      acc.2.2 ≤ (l.foldl (kdmStep vm sex) acc).2.2
  | [], _ => le_refl _
  | m :: rest, acc =>
    le_trans (kdmStep_n_le vm sex acc m) (kdmFold_n_le vm sex rest _)

/-- A metric with a present value and a nonzero slope makes the count
positive. -/
theorem kdmFold_n_pos (vm : MetricId → Option ℚ) (sex : Sex) (v : ℚ) :
    ∀ (l : List MetricId) (acc : ℚ × ℚ × ℕ) (id : MetricId), id ∈ l →
      vm id = some v → (KDM_P id sex).k ≠ 0 →
      0 < (l.foldl (kdmStep vm sex) acc).2.2
  | m :: rest, acc, id, hmem, hv, hk => by
    rcases List.mem_cons.mp hmem with rfl | hmem'
    · refine lt_of_lt_of_le ?_ (kdmFold_n_le vm sex rest _)
      unfold kdmStep
      rw [hv]
      simp [hk]
    · exact kdmFold_n_pos vm sex v rest _ id hmem' hv hk

/-- `_kdm` returns a value as soon as one metric with a nonzero slope has a
value. -/
theorem kdm_isSome (vm : MetricId → Option ℚ) (CA : ℚ) (sex : Sex)
    (id : MetricId) (v : ℚ) (hv : vm id = some v)
    (hk : (KDM_P id sex).k ≠ 0) : ∃ r, kdm vm CA sex = some r := by
  have hmem : id ∈ MK := by cases id <;> decide
  have hpos := kdmFold_n_pos vm sex v MK (0, 0, 0) id hmem hv hk
  unfold kdm
  rw [if_neg (by omega)]
  exact ⟨_, rfl⟩

/-- Every metric's regression slope is nonzero in the `KDM_P` table. -/
theorem KDM_P_k_ne_zero (id : MetricId) (sex : Sex) : (KDM_P id sex).k ≠ 0 := by
  cases id <;> cases sex <;> with_unfolding_all decide

/-- `round1 0 = 0`. -/
theorem round1_zero : round1 0 = 0 := by
  unfold round1
  norm_num

/-- C3 (amended): the gain is exactly
`+(currentBioAge − hypotheticalBioAge).toFixed(1)` — no clamping is
applied, and a metric whose latest value is better than its optimal
boundary can produce a negative gain (the UI renders rows with gain ≤ 0.1
as "At optimal", but the stored gain is the raw difference).  When the
latest value equals the substituted optimal boundary the gain is exactly 0
(in particular at most 0.1). -/
theorem C3_gain_formula :
    (∀ (entries : List HEntry) (age : ℚ) (sex : Sex) (eth : Eth)
        (id : MetricId) (cur hyp : ℚ),
        getBioAge entries age sex = some cur →
        getHypoBioAge entries age sex eth id = some hyp →
        impactGain entries age sex eth id = round1 (cur - hyp)) ∧
    (∀ (entries : List HEntry) (age : ℚ) (sex : Sex) (eth : Eth)
        (target : MetricId),
        (latestEntry entries target).map HEntry.value =
          some (optBoundary target sex eth) →
        impactGain entries age sex eth target = 0) := by
  constructor
  · intro entries age sex eth id cur hyp hcur hhyp
    unfold impactGain
    rw [hcur, hhyp]
  · intro entries age sex eth target hb
    have hvm :
        (fun id => if id = target then some (optBoundary id sex eth)
                   else (latestEntry entries id).map (·.value)) =
        (fun id => (latestEntry entries id).map (·.value)) := by
      funext id
      by_cases hid : id = target
      · subst hid
        simp [hb]
      · simp [hid]
    unfold impactGain getBioAge getHypoBioAge
    rw [hvm]
    cases hk : kdm (fun id => (latestEntry entries id).map (·.value)) age sex with
    | none =>
      obtain ⟨r, hr⟩ :=
        kdm_isSome (fun id => (latestEntry entries id).map (·.value)) age sex
          target (optBoundary target sex eth) hb (KDM_P_k_ne_zero target sex)
      rw [hk] at hr
    | some cur =>
      simp only [sub_self]
      exact round1_zero

/-- An entry sitting exactly at the female VO₂ max optimal boundary. -/
def c3Boundary : HEntry := ⟨js "w1", .vo2max, 44, none, js "2024-01-01", js ""⟩

/-- Witness for C3: at the boundary entry the gain evaluates to 0, and the
gain formula instantiates at the concrete bio-age values. -/
theorem C3_gain_formula_witness :
    impactGain [c3Boundary] 40 .female .general .vo2max = 0 ∧
    impactGain [c3Boundary] 40 .female .general .vo2max = round1 (178 / 5 - 178 / 5) := by
  constructor
  · exact C3_gain_formula.2 [c3Boundary] 40 .female .general .vo2max
      (by with_unfolding_all decide)
  · exact C3_gain_formula.1 [c3Boundary] 40 .female .general .vo2max (178 / 5) (178 / 5)
      (by with_unfolding_all decide) (by with_unfolding_all decide)

/-! ### C4 — merge semantics of `handleImport` -/

/-- A manually logged resting-heart-rate entry. -/
def c4Manual : HEntry := ⟨js "1700000000000", .rhr, 60, none, js "2024-01-01", js ""⟩

/-- A previously imported Apple Health glucose entry. -/
def c4Apple : HEntry :=
  ⟨js "ah_glucose_2024-01-02", .glucose, 90, none, js "2024-01-02", js "Apple Health"⟩

/-- An incoming Google Fit entry sharing metric and date with the manual
entry only. -/
def c4Incoming : HEntry :=
  ⟨js "gf_rhr_2024-01-01", .rhr, 62, none, js "2024-01-01", js "Google Fit"⟩

/-- C4 counterexample: importing one Google Fit entry (a) throws away the
previously imported Apple Health entry although no incoming entry shares
its source, metric, or date, and (b) replaces the *manual* entry that
shares its metric and date although its source differs — both contradict
the claim. -/
theorem C4_replaces_too_much :
    handleImport [c4Manual, c4Apple] [c4Incoming] = [c4Incoming] ∧
    c4Manual ∉ handleImport [c4Manual, c4Apple] [c4Incoming] ∧
    c4Apple ∉ handleImport [c4Manual, c4Apple] [c4Incoming] := by
  refine ⟨by decide, by decide, by decide⟩

/-- Survival of an untouched entry through the in-place replacement. -/
theorem mem_replaceFirst {p : HEntry → Bool} {x e : HEntry} :
    ∀ {l l' : List HEntry}, replaceFirst p x l = some l' → e ∈ l →
      p e = false → e ∈ l'
  | [], _, h, _, _ => by simp [replaceFirst] at h
  | a :: rest, l', h, he, hpe => by
    unfold replaceFirst at h
    by_cases hpa : p a
    · rw [if_pos hpa] at h
      cases h
      rcases List.mem_cons.mp he with rfl | hm
      · rw [hpa] at hpe
        cases hpe
      · exact List.mem_cons_of_mem _ hm
    · rw [if_neg hpa] at h
      obtain ⟨r', hr', rfl⟩ := Option.map_eq_some'.mp h
      rcases List.mem_cons.mp he with rfl | hm
      · exact List.mem_cons_self _ _
      · exact List.mem_cons_of_mem _ (mem_replaceFirst hr' hm hpe)

/-- The replacement result only contains old elements and the new one. -/
theorem mem_of_replaceFirst {p : HEntry → Bool} {x e : HEntry} :
    ∀ {l l' : List HEntry}, replaceFirst p x l = some l' → e ∈ l' →
      e ∈ l ∨ e = x
  | [], _, h, _ => by simp [replaceFirst] at h
  | a :: rest, l', h, he => by
    unfold replaceFirst at h
    by_cases hpa : p a
    · rw [if_pos hpa] at h
      cases h
      rcases List.mem_cons.mp he with rfl | hm
      · exact Or.inr rfl
      · exact Or.inl (List.mem_cons_of_mem _ hm)
    · rw [if_neg hpa] at h
      obtain ⟨r', hr', rfl⟩ := Option.map_eq_some'.mp h
      rcases List.mem_cons.mp he with rfl | hm
      · exact Or.inl (List.mem_cons_self _ _)
      · rcases mem_of_replaceFirst hr' hm with h' | h'
        · exact Or.inl (List.mem_cons_of_mem _ h')
        · exact Or.inr h'

/-- An entry not matching the incoming metric+date survives one merge
step. -/
theorem mem_mergeStep_keep {merged : List HEntry} {x e : HEntry}
    (he : e ∈ merged) (hne : ¬(e.metricId = x.metricId ∧ e.date = x.date)) :
    e ∈ mergeStep merged x := by
  unfold mergeStep
  cases hrep : replaceFirst (fun e' => e'.metricId = x.metricId && e'.date = x.date)
      x merged with
  | none => exact List.mem_append_left _ he
  | some l' =>
    refine mem_replaceFirst hrep he ?_
    simpa using hne

/-- One merge step only produces old elements and the incoming entry. -/
theorem mem_mergeStep_src {merged : List HEntry} {x e : HEntry}
    (he : e ∈ mergeStep merged x) : e ∈ merged ∨ e = x := by
  unfold mergeStep at he
  revert he
  cases hrep : replaceFirst (fun e' => e'.metricId = x.metricId && e'.date = x.date)
      x merged with
  | none =>
    intro he
    rcases List.mem_append.mp he with h | h
    · exact Or.inl h
    · exact Or.inr (by simpa using h)
  | some l' =>
    intro he
    exact mem_of_replaceFirst hrep he

/-- An entry matched by no incoming entry survives the whole merge fold. -/
theorem mem_mergeFold_keep {e : HEntry} :
    ∀ (ne acc : List HEntry), e ∈ acc →
      (∀ x ∈ ne, ¬(e.metricId = x.metricId ∧ e.date = x.date)) →
      e ∈ ne.foldl mergeStep acc
  | [], _, he, _ => he
  | x :: rest, acc, he, hno =>
    mem_mergeFold_keep rest (mergeStep acc x)
      (mem_mergeStep_keep he (hno x (List.mem_cons_self _ _)))
      (fun y hy => hno y (List.mem_cons_of_mem _ hy))

/-- The merge fold only produces initial elements and incoming entries. -/
theorem mem_mergeFold_src {e : HEntry} :
    ∀ (ne acc : List HEntry), e ∈ ne.foldl mergeStep acc → e ∈ acc ∨ e ∈ ne
  | [], _, h => Or.inl h
  | x :: rest, acc, h => by
    rcases mem_mergeFold_src rest (mergeStep acc x) h with h' | h'
    · rcases mem_mergeStep_src h' with h'' | rfl
      · exact Or.inl h''
      · exact Or.inr (List.mem_cons_self _ _)
    · exact Or.inr (List.mem_cons_of_mem _ h')

/-- C4 (amended): an import drops *every* previously imported entry
(matched or not) and keeps manual entries, except that a manual entry
sharing metricId and date with an incoming entry is replaced by it —
regardless of source.  Formally: a kept (non-import-note) old entry with no
incoming metricId+date match survives, and everything in the merged list is
either such a kept old entry or an incoming entry. -/
theorem C4_import_merge :
    (∀ (old ne : List HEntry) (e : HEntry), e ∈ old →
        isImportNote e.note = false →
        (∀ x ∈ ne, ¬(e.metricId = x.metricId ∧ e.date = x.date)) →
        e ∈ handleImport old ne) ∧
    (∀ (old ne : List HEntry) (e : HEntry), e ∈ handleImport old ne →
        (e ∈ old ∧ isImportNote e.note = false) ∨ e ∈ ne) := by
  constructor
  · intro old ne e he hnote hno
    exact mem_mergeFold_keep ne _ (List.mem_filter.mpr ⟨he, by simp [hnote]⟩) hno
  · intro old ne e h
    rcases mem_mergeFold_src ne _ h with h' | h'
    · have := List.mem_filter.mp h'
      exact Or.inl ⟨this.1, by simpa using this.2⟩
    · exact Or.inr h'

/-- An incoming entry not matching the manual entry's metric+date. -/
def c4Other : HEntry :=
  ⟨js "gf_glucose_2024-02-02", .glucose, 88, none, js "2024-02-02", js "Google Fit"⟩

/-- Witness for C4: the manual entry survives an import whose entries match
neither its metric nor its date, and a surviving entry is accounted for. -/
theorem C4_import_merge_witness :
    c4Manual ∈ handleImport [c4Manual, c4Apple] [c4Other] ∧
    ((c4Other ∈ ([c4Manual, c4Apple] : List HEntry) ∧
        isImportNote c4Other.note = false) ∨
      c4Other ∈ [c4Other]) := by
  constructor
  · exact C4_import_merge.1 [c4Manual, c4Apple] [c4Other] c4Manual
      (by decide) (by decide) (by decide)
  · exact C4_import_merge.2 [c4Manual, c4Apple] [c4Other] c4Other
      (by decide)

/-! ### C8 and C9 — estimator clamp, rounding, and calibration -/

/-- A rational is written with (at most) one decimal place exactly when ten
times it is an integer. -/
def oneDecimal (q : ℚ) : Prop := (q * 10).den = 1

instance (q : ℚ) : Decidable (oneDecimal q) :=
  inferInstanceAs (Decidable ((q * 10).den = 1))

theorem oneDecimal_iff {q : ℚ} : oneDecimal q ↔ ∃ z : ℤ, q * 10 = z := by
  unfold oneDecimal
  constructor
  · intro h
    exact ⟨(q * 10).num, ((q * 10).den_eq_one_iff.mp h).symm⟩
  · rintro ⟨z, hz⟩
    rw [hz]
    exact Rat.den_intCast z

/-- The shape of every value returned by `_kdm`: a rounded estimate clamped
to `[CA-20, CA+20]`. -/
theorem kdm_shape {vm : MetricId → Option ℚ} {CA : ℚ} {sex : Sex} {x : ℚ}
    (h : kdm vm CA sex = some x) :
    ∃ BA : ℚ, x = max (CA - 20) (min (CA + 20) (round1 BA)) := by
  unfold kdm at h
  simp only [] at h
  split at h
  · cases h
  · exact ⟨_, (Option.some.injEq _ _ ▸ h).symm⟩

/-- Rounding to one decimal never adds more than a twentieth. -/
theorem round1_le (x : ℚ) : round1 x ≤ x + 1 / 20 := by
  unfold round1
  have h : ((⌊x * 10 + 1 / 2⌋ : ℤ) : ℚ) ≤ x * 10 + 1 / 2 := Int.floor_le _
  rw [div_le_iff₀ (by norm_num : (0 : ℚ) < 10)]
  linarith

/-- Rounding to one decimal never removes a twentieth or more. -/
theorem round1_gt (x : ℚ) : x - 1 / 20 < round1 x := by
  unfold round1
  have h : x * 10 + 1 / 2 < (⌊x * 10 + 1 / 2⌋ : ℤ) + 1 := Int.lt_floor_add_one _
  rw [lt_div_iff₀ (by norm_num : (0 : ℚ) < 10)]
  linarith

/-- The result of `round1` is a one-decimal number. -/
theorem oneDecimal_round1 (x : ℚ) : oneDecimal (round1 x) := by
  rw [oneDecimal_iff]
  exact ⟨⌊x * 10 + 1 / 2⌋, by unfold round1; field_simp⟩

/-- C8 (amended): every number returned by `_kdm` lies in
`[chronoAge − 20, chronoAge + 20]`; and because rounding to one decimal
place happens *before* the clamp, the result is a one-decimal number
whenever the chronological age is one (in particular for the integer ages
the app produces) — but not for arbitrary fractional ages, see the
counterexample. -/
theorem C8_estimate_clamped :
    (∀ (vm : MetricId → Option ℚ) (CA : ℚ) (sex : Sex) (x : ℚ),
        kdm vm CA sex = some x → CA - 20 ≤ x ∧ x ≤ CA + 20) ∧
    (∀ (vm : MetricId → Option ℚ) (CA : ℚ) (sex : Sex) (x : ℚ),
        kdm vm CA sex = some x → oneDecimal CA → oneDecimal x) := by
  constructor
  · intro vm CA sex x h
    obtain ⟨BA, rfl⟩ := kdm_shape h
    constructor
    · exact le_max_left _ _
    · exact max_le (by linarith) (min_le_left _ _)
  · intro vm CA sex x h hCA
    obtain ⟨BA, rfl⟩ := kdm_shape h
    obtain ⟨z, hz⟩ := oneDecimal_iff.mp hCA
    have hlo : oneDecimal (CA - 20) :=
      oneDecimal_iff.mpr ⟨z - 200, by push_cast; linarith⟩
    have hhi : oneDecimal (CA + 20) :=
      oneDecimal_iff.mpr ⟨z + 200, by push_cast; linarith⟩
    have hr : oneDecimal (round1 BA) := oneDecimal_round1 BA
    rcases max_choice (CA - 20) (min (CA + 20) (round1 BA)) with hm | hm <;> rw [hm]
    · exact hlo
    · rcases min_choice (CA + 20) (round1 BA) with hm' | hm' <;> rw [hm']
      · exact hhi
      · exact hr

/-- The value map used by the C8 witness: only VO₂ max present, at the
female population intercept. -/
def c8vm : MetricId → Option ℚ := fun id => if id = .vo2max then some 49 else none

/-- Witness for C8: a concrete estimate (33.4 for a 40-year-old female with
VO₂ max 49) is inside the clamp window and has one decimal place. -/
theorem C8_estimate_clamped_witness :
    ((40 : ℚ) - 20 ≤ 167 / 5 ∧ (167 : ℚ) / 5 ≤ 40 + 20) ∧ oneDecimal (167 / 5) :=
  ⟨C8_estimate_clamped.1 c8vm 40 .female (167 / 5) (by with_unfolding_all decide),
   C8_estimate_clamped.2 c8vm 40 .female (167 / 5) (by with_unfolding_all decide)
     (by with_unfolding_all decide)⟩

/-- The value map of the C8 counterexample: an extreme VO₂ max. -/
def c8vmX : MetricId → Option ℚ := fun id => if id = .vo2max then some (-10000) else none

/-- C8 counterexample: for the fractional chronological age 40.25 and an
extreme input, the code rounds *then* clamps, returning exactly
`CA + 20 = 60.25` — inside the window but not a one-decimal number, so the
claim's "rounded to one decimal place" fails as universally stated. -/
theorem C8_fractional_age_not_rounded :
    kdm c8vmX (161 / 4) .female = some (241 / 4) ∧ ¬ oneDecimal (241 / 4) := by
  constructor
  · with_unfolding_all decide
  · unfold oneDecimal
    with_unfolding_all decide

/-- The clamp-collapsing step shared by the C9 proof: once the raw estimate
equals the chronological age, the clamp window never binds. -/
theorem clamp_round1_self (CA : ℚ) :
    ∀ BA : ℚ, BA = CA → max (CA - 20) (min (CA + 20) (round1 BA)) = round1 CA := by
  intro BA h
  rw [h, min_eq_right (by linarith [round1_le CA]),
    max_eq_right (by linarith [round1_gt CA])]

/-- C9: with every metric at its population-average value `q + k·CA` for
the subject's sex, the estimate is exactly `CA` rounded to one decimal,
hence within 1/20 of the chronological age. -/
theorem C9_population_average (CA : ℚ) (sex : Sex) :
    kdm (fun id => some ((KDM_P id sex).q + (KDM_P id sex).k * CA)) CA sex =
      some (round1 CA) ∧
    |round1 CA - CA| ≤ 1 / 20 := by
  constructor
  · cases sex <;>
    · unfold kdm MK kdmStep KDM_P KDM_W_CA KDM_S_BA
      norm_num [List.foldl]
      refine (clamp_round1_self CA _ ?_)
      field_simp
      ring
  · rw [abs_le]
    constructor
    · linarith [round1_gt CA]
    · linarith [round1_le CA]

/-! ### C6 and C7 — scoring range, clamping, and monotonicity -/

/-- The lower bound of the `i`-th scoring band. -/
def bandLo (R : List Band) (i : ℕ) : ℚ := ((R.get? i).getD dBand).lo

/-- The upper bound of the `i`-th scoring band. -/
def bandHi (R : List Band) (i : ℕ) : ℚ := ((R.get? i).getD dBand).hi

/-- Ethnicity adjustments only move the optimal boundary, never the scoring
bands. -/
theorem getM_ranges (id : MetricId) (sex : Sex) (eth : Eth) :
    (getM id sex eth).ranges = (MBsex id sex).ranges := by
  unfold getM
  simp only []
  split <;> rfl

/-- Ethnicity adjustments never change the directionality either. -/
theorem getM_hib (id : MetricId) (sex : Sex) (eth : Eth) :
    (getM id sex eth).higherIsBetter = (MBsex id sex).higherIsBetter := by
  unfold getM
  simp only []
  split <;> rfl

/-- Every metric's band table has exactly four bands for either sex. -/
theorem ranges_len4 (id : MetricId) (sex : Sex) : (MBsex id sex).ranges.length = 4 := by
  cases id <;> cases sex <;> rfl

/-- The band bounds of every table are ordered:
`lo 0 ≤ lo 1 ≤ lo 2 ≤ lo 3 ≤ hi 3`. -/
theorem table_sorted (id : MetricId) (sex : Sex) :
    bandLo (MBsex id sex).ranges 0 ≤ bandLo (MBsex id sex).ranges 1 ∧
    bandLo (MBsex id sex).ranges 1 ≤ bandLo (MBsex id sex).ranges 2 ∧
    bandLo (MBsex id sex).ranges 2 ≤ bandLo (MBsex id sex).ranges 3 ∧
    bandLo (MBsex id sex).ranges 3 ≤ bandHi (MBsex id sex).ranges 3 := by
  cases id <;> cases sex <;>
    refine ⟨?_, ?_, ?_, ?_⟩ <;> with_unfolding_all decide

/-- What a successful `findBand` guarantees. -/
theorem findBand_spec {R : List Band} {v : ℚ} {i : ℕ}
    (h : findBand R v = some i) : i < R.length ∧ bandMatch R i v = true := by
  unfold findBand at h
  have hp := @List.find?_some ℕ (fun j => bandMatch R j v) i (List.range R.length) h
  have hm := @List.mem_of_find?_eq_some ℕ (fun j => bandMatch R j v) i (List.range R.length) h
  exact ⟨List.mem_range.mp hm, by simpa using hp⟩

/-- A matched band's lower bound is below the value. -/
theorem bandMatch_lo {R : List Band} {i : ℕ} {v : ℚ}
    (h : bandMatch R i v = true) : bandLo R i ≤ v := by
  unfold bandMatch at h
  simp only [Bool.and_eq_true, decide_eq_true_eq] at h
  exact h.1

/-- The in-band interpolation always lands in `[15, 100]` (only
nonnegativity of the fractional position is needed, thanks to the
`Math.min`/`Math.max` guards and the anchor table). -/
theorem bandScore_mem (R : List Band) (hib : Bool) (v : ℚ) (i : ℕ)
    (h4 : R.length = 4) (hi : i < 4) (hlo : bandLo R i ≤ v) :
    15 ≤ bandScore R hib v i ∧ bandScore R hib v i ≤ 100 := by
  unfold bandLo at hlo
  simp only [bandScore, h4]
  have hpos : 0 ≤ (if ((R.get? i).getD dBand).lo < ((R.get? i).getD dBand).hi then
      (v - ((R.get? i).getD dBand).lo) /
        (((R.get? i).getD dBand).hi - ((R.get? i).getD dBand).lo) else 0) := by
    split
    · apply div_nonneg <;> linarith
    · exact le_refl 0
  set pos := (if ((R.get? i).getD dBand).lo < ((R.get? i).getD dBand).hi then
      (v - ((R.get? i).getD dBand).lo) /
        (((R.get? i).getD dBand).hi - ((R.get? i).getD dBand).lo) else 0) with hposd
  interval_cases i <;> cases hib <;>
    simp only [stGet, ST, Bool.false_eq_true, if_true, if_false,
      List.getD, List.get?, Option.getD] <;>
    norm_num <;>
    linarith [hpos]

/-- The out-of-band fall-through only ever returns 15 or 100. -/
theorem outOfBandScore_mem (R : List Band) (hib : Bool) (v : ℚ) :
    15 ≤ outOfBandScore R hib v ∧ outOfBandScore R hib v ≤ 100 := by
  unfold outOfBandScore
  split <;> split <;> norm_num

/-- Below the whole domain no band matches. -/
theorem findBand_none_low {R : List Band} {v : ℚ} (h4 : R.length = 4)
    (hv : v < bandLo R 0) (h01 : bandLo R 0 ≤ bandLo R 1)
    (h12 : bandLo R 1 ≤ bandLo R 2) (h23 : bandLo R 2 ≤ bandLo R 3) :
    findBand R v = none := by
  unfold findBand
  rw [h4]
  apply List.find?_eq_none.mpr
  intro i hi
  rw [List.mem_range] at hi
  simp only [bandLo, List.get?_eq_getElem?] at hv h01 h12 h23
  interval_cases i <;>
    simp only [bandMatch, h4, Bool.and_eq_true, decide_eq_true_eq, not_and,
      List.get?_eq_getElem?] <;>
    norm_num <;>
    intro hle <;>
    linarith

/-- Above the whole domain no band matches. -/
theorem findBand_none_high {R : List Band} {v : ℚ} (h4 : R.length = 4)
    (hv : bandHi R 3 < v) (h01 : bandLo R 0 ≤ bandLo R 1)
    (h12 : bandLo R 1 ≤ bandLo R 2) (h23 : bandLo R 2 ≤ bandLo R 3)
    (h3 : bandLo R 3 ≤ bandHi R 3) :
    findBand R v = none := by
  unfold findBand
  rw [h4]
  apply List.find?_eq_none.mpr
  intro i hi
  rw [List.mem_range] at hi
  simp only [bandLo, bandHi, List.get?_eq_getElem?] at hv h01 h12 h23 h3
  interval_cases i <;>
    simp only [bandMatch, h4, Bool.and_eq_true, decide_eq_true_eq, not_and,
      List.get?_eq_getElem?] <;>
    norm_num <;>
    intro hle <;>
    linarith

/-- C6: the score is `null` exactly for an absent raw value; every returned
score lies in `[15, 100]`; and a value outside all bands clamps to 15 or
100 according to the side of the domain and the metric's directionality
(below the domain: 15 when higher is better, else 100; above: 100 when
higher is better, else 15). -/
theorem C6_score_range :
    ∀ (id : MetricId) (sex : Sex) (eth : Eth),
      getScore id none sex eth = none ∧
      (∀ v s, getScore id (some v) sex eth = some s → 15 ≤ s ∧ s ≤ 100) ∧
      (∀ v, v < bandLo (MBsex id sex).ranges 0 →
        getScore id (some v) sex eth =
          some (if (MBsex id sex).higherIsBetter then 15 else 100)) ∧
      (∀ v, bandHi (MBsex id sex).ranges 3 < v →
        getScore id (some v) sex eth =
          some (if (MBsex id sex).higherIsBetter then 100 else 15)) := by
  intro id sex eth
  obtain ⟨h01, h12, h23, h3⟩ := table_sorted id sex
  have h4 := ranges_len4 id sex
  refine ⟨rfl, ?_, ?_, ?_⟩
  · intro v s h
    unfold getScore at h
    simp only [] at h
    rw [getM_ranges, getM_hib] at h
    cases hfb : findBand (MBsex id sex).ranges v with
    | some i =>
      rw [hfb] at h
      cases h
      obtain ⟨hlen, hbm⟩ := findBand_spec hfb
      exact bandScore_mem _ _ _ _ h4 (h4 ▸ hlen) (bandMatch_lo hbm)
    | none =>
      rw [hfb] at h
      cases h
      exact outOfBandScore_mem _ _ _
  · intro v hv
    unfold getScore
    simp only []
    rw [getM_ranges, getM_hib, findBand_none_low h4 hv h01 h12 h23]
    show some (outOfBandScore (MBsex id sex).ranges (MBsex id sex).higherIsBetter v) = _
    unfold outOfBandScore bandLo bandHi at *
    simp only [List.get?_eq_getElem?] at *
    rw [h4]
    cases (MBsex id sex).higherIsBetter
    · norm_num
      exact hv
    · norm_num
      linarith
  · intro v hv
    unfold getScore
    simp only []
    rw [getM_ranges, getM_hib, findBand_none_high h4 hv h01 h12 h23 h3]
    show some (outOfBandScore (MBsex id sex).ranges (MBsex id sex).higherIsBetter v) = _
    unfold outOfBandScore bandLo bandHi at *
    simp only [List.get?_eq_getElem?] at *
    rw [h4]
    cases (MBsex id sex).higherIsBetter
    · norm_num
      linarith
    · norm_num
      exact hv

/-- A concrete in-band instance: female VO₂ max 32 falls in band 2. -/
theorem C6_score_range_witness :
    getScore .vo2max none .female .general = none ∧
    ((15 : ℚ) ≤ 964 / 13 ∧ (964 : ℚ) / 13 ≤ 100) ∧
    getScore .vo2max (some 10) .female .general = some 15 ∧
    getScore .vo2max (some 60) .female .general = some 100 := by
  obtain ⟨hn, hr, hlo, hhi⟩ := C6_score_range .vo2max .female .general
  refine ⟨hn, hr 32 (964 / 13) (by with_unfolding_all decide), ?_, ?_⟩
  · have := hlo 10 (by with_unfolding_all decide)
    simpa using this
  · have := hhi 60 (by with_unfolding_all decide)
    simpa using this

/-- Monotonicity of the in-band interpolation: nondecreasing in the value
when higher is better, nonincreasing otherwise. -/
theorem bandScore_mono (R : List Band) (v1 v2 : ℚ) (i : ℕ)
    (h4 : R.length = 4) (hi : i < 4) (hlo : bandLo R i ≤ v1) (hvv : v1 ≤ v2) :
    bandScore R true v1 i ≤ bandScore R true v2 i ∧
    bandScore R false v2 i ≤ bandScore R false v1 i := by
  unfold bandLo at hlo
  simp only [bandScore, h4]
  have hp1 : 0 ≤ (if ((R.get? i).getD dBand).lo < ((R.get? i).getD dBand).hi then
      (v1 - ((R.get? i).getD dBand).lo) /
        (((R.get? i).getD dBand).hi - ((R.get? i).getD dBand).lo) else 0) := by
    split
    · apply div_nonneg <;> linarith
    · exact le_refl 0
  have hp12 : (if ((R.get? i).getD dBand).lo < ((R.get? i).getD dBand).hi then
      (v1 - ((R.get? i).getD dBand).lo) /
        (((R.get? i).getD dBand).hi - ((R.get? i).getD dBand).lo) else 0) ≤
      (if ((R.get? i).getD dBand).lo < ((R.get? i).getD dBand).hi then
      (v2 - ((R.get? i).getD dBand).lo) /
        (((R.get? i).getD dBand).hi - ((R.get? i).getD dBand).lo) else 0) := by
    split
    · gcongr
      linarith
    · exact le_refl 0
  set p1 := (if ((R.get? i).getD dBand).lo < ((R.get? i).getD dBand).hi then
      (v1 - ((R.get? i).getD dBand).lo) /
        (((R.get? i).getD dBand).hi - ((R.get? i).getD dBand).lo) else 0)
  set p2 := (if ((R.get? i).getD dBand).lo < ((R.get? i).getD dBand).hi then
      (v2 - ((R.get? i).getD dBand).lo) /
        (((R.get? i).getD dBand).hi - ((R.get? i).getD dBand).lo) else 0)
  interval_cases i <;>
    simp only [stGet, ST, List.getD, List.get?, Option.getD] <;>
    exact ⟨min_le_min (le_refl _) (by linarith), max_le_max (le_refl _) (by linarith)⟩

/-- C7: within one band (both values matched to the same band index), the
score never decreases as the value improves — upward for a
higher-is-better metric, downward otherwise. -/
theorem C7_score_monotone :
    ∀ (id : MetricId) (sex : Sex) (eth : Eth) (v1 v2 : ℚ) (i : ℕ) (s1 s2 : ℚ),
      findBand (MBsex id sex).ranges v1 = some i →
      findBand (MBsex id sex).ranges v2 = some i →
      getScore id (some v1) sex eth = some s1 →
      getScore id (some v2) sex eth = some s2 →
      v1 ≤ v2 →
      ((MBsex id sex).higherIsBetter = true → s1 ≤ s2) ∧
      ((MBsex id sex).higherIsBetter = false → s2 ≤ s1) := by
  intro id sex eth v1 v2 i s1 s2 hf1 hf2 hs1 hs2 hvv
  have h4 := ranges_len4 id sex
  unfold getScore at hs1 hs2
  simp only [] at hs1 hs2
  rw [getM_ranges, getM_hib, hf1] at hs1
  rw [getM_ranges, getM_hib, hf2] at hs2
  cases hs1
  cases hs2
  obtain ⟨hlen, hbm⟩ := findBand_spec hf1
  have hm := bandScore_mono (MBsex id sex).ranges v1 v2 i h4 (h4 ▸ hlen)
    (bandMatch_lo hbm) hvv
  constructor
  · intro hhib
    rw [hhib]
    exact hm.1
  · intro hhib
    rw [hhib]
    exact hm.2

/-- Witness for C7: female VO₂ max 32 and 33 both sit in band 2, and the
score rises with the value. -/
theorem C7_score_monotone_witness : (964 : ℚ) / 13 ≤ 1020 / 13 :=
  (C7_score_monotone .vo2max .female .general 32 33 2 (964 / 13) (1020 / 13)
    (by with_unfolding_all decide) (by with_unfolding_all decide)
    (by with_unfolding_all decide) (by with_unfolding_all decide)
    (by norm_num)).1 (by with_unfolding_all decide)

/-! ### C10 — entry-id uniqueness -/

/-- The decimal digit characters. -/
def digitList : List Char := ['0', '1', '2', '3', '4', '5', '6', '7', '8', '9']

theorem digitChar_mem (n : ℕ) : digitChar n ∈ digitList := by
  unfold digitChar
  split_ifs <;> decide

theorem digitChar_inj {a b : ℕ} (ha : a < 10) (hb : b < 10)
    (h : digitChar a = digitChar b) : a = b := by
  interval_cases a <;> interval_cases b <;> revert h <;> decide

/-- The fuel of `natDigitsAux` is irrelevant once it covers the number. -/
theorem natDigitsAux_fuel : ∀ (f1 f2 n : ℕ), n ≤ f1 → n ≤ f2 →
    natDigitsAux f1 n = natDigitsAux f2 n
  | 0, f2, n, h1, _ => by
    interval_cases n
    cases f2 with
    | zero => rfl
    | succ f2' => simp [natDigitsAux]
  | f1 + 1, 0, n, _, h2 => by
    interval_cases n
    simp [natDigitsAux]
  | f1 + 1, f2 + 1, n, h1, h2 => by
    unfold natDigitsAux
    by_cases h : n < 10
    · rw [if_pos h, if_pos h]
    · rw [if_neg h, if_neg h]
      have hlt : n / 10 < n := Nat.div_lt_self (by omega) (by omega)
      rw [natDigitsAux_fuel f1 f2 (n / 10) (by omega) (by omega)]

/-- The defining unfolding of `natDigits`. -/
theorem natDigits_eq (n : ℕ) : natDigits n =
    if n < 10 then [digitChar n]
    else natDigits (n / 10) ++ [digitChar (n % 10)] := by
  by_cases h : n < 10
  · rw [if_pos h]
    show natDigitsAux n n = _
    cases n with
    | zero => rfl
    | succ m =>
      unfold natDigitsAux
      rw [if_pos h]
  · rw [if_neg h]
    show natDigitsAux n n = natDigitsAux (n / 10) (n / 10) ++ [digitChar (n % 10)]
    cases n with
    | zero => omega
    | succ m =>
      rw [show natDigitsAux (m + 1) (m + 1) =
          if m + 1 < 10 then [digitChar (m + 1)]
          else natDigitsAux m ((m + 1) / 10) ++ [digitChar ((m + 1) % 10)] from rfl]
      rw [if_neg h]
      congr 1
      have hlt : (m + 1) / 10 < m + 1 := Nat.div_lt_self (by omega) (by omega)
      exact natDigitsAux_fuel m ((m + 1) / 10) ((m + 1) / 10) (by omega) (le_refl _)

theorem natDigits_ne_nil (n : ℕ) : natDigits n ≠ [] := by
  rw [natDigits_eq]
  split
  · simp
  · simp

theorem natDigits_chars (n : ℕ) : ∀ c ∈ natDigits n, c ∈ digitList := by
  induction n using Nat.strong_induction_on with
  | _ n ih =>
    rw [natDigits_eq]
    split
    · intro c hc
      rw [List.mem_singleton] at hc
      subst hc
      exact digitChar_mem _
    · intro c hc
      rcases List.mem_append.mp hc with hc | hc
      · exact ih (n / 10) (Nat.div_lt_self (by omega) (by omega)) c hc
      · rw [List.mem_singleton] at hc
        subst hc
        exact digitChar_mem _

theorem natDigits_inj (m : ℕ) : ∀ n, natDigits m = natDigits n → m = n := by
  induction m using Nat.strong_induction_on with
  | _ m ih =>
    intro n h
    rw [natDigits_eq m, natDigits_eq n] at h
    by_cases hm : m < 10 <;> by_cases hn : n < 10
    · rw [if_pos hm, if_pos hn] at h
      exact digitChar_inj hm hn (List.singleton_inj.mp h)
    · rw [if_pos hm, if_neg hn] at h
      have hlen := congrArg List.length h
      simp at hlen
      exact absurd hlen (natDigits_ne_nil (n / 10))
    · rw [if_neg hm, if_pos hn] at h
      have hlen := congrArg List.length h
      simp at hlen
      exact absurd hlen (natDigits_ne_nil (m / 10))
    · rw [if_neg hm, if_neg hn] at h
      have hr := congrArg List.reverse h
      simp only [List.reverse_append, List.reverse_singleton,
        List.singleton_append, List.cons.injEq] at hr
      obtain ⟨hd, ht⟩ := hr
      have htl : natDigits (m / 10) = natDigits (n / 10) := by
        have := congrArg List.reverse ht
        simpa using this
      have h1 := ih (m / 10) (Nat.div_lt_self (by omega) (by omega)) (n / 10) htl
      have h2 := digitChar_inj (Nat.mod_lt _ (by omega)) (Nat.mod_lt _ (by omega)) hd
      omega

/-- Splitting a concatenation at the first underscore. -/
theorem underscore_split : ∀ (a1 b1 a2 b2 : JStr),
    '_' ∉ a1 → '_' ∉ a2 → a1 ++ '_' :: b1 = a2 ++ '_' :: b2 → a1 = a2 ∧ b1 = b2
  | [], b1, [], b2, _, _, h => by
    rw [List.nil_append, List.nil_append] at h
    exact ⟨rfl, (List.cons.injEq _ _ _ _ ▸ h).2⟩
  | [], b1, c :: r2, b2, _, h2, h => by
    rw [List.nil_append, List.cons_append] at h
    have hc := (List.cons.injEq _ _ _ _ ▸ h).1
    exact absurd (hc ▸ List.mem_cons_self c r2) h2
  | c :: r1, b1, [], b2, h1, _, h => by
    rw [List.nil_append, List.cons_append] at h
    have hc := (List.cons.injEq _ _ _ _ ▸ h).1
    exact absurd (hc ▸ List.mem_cons_self c r1) h1
  | c1 :: r1, b1, c2 :: r2, b2, h1, h2, h => by
    rw [List.cons_append, List.cons_append] at h
    have hc := (List.cons.injEq _ _ _ _ ▸ h).1
    have ht := (List.cons.injEq _ _ _ _ ▸ h).2
    obtain ⟨ha, hb⟩ := underscore_split r1 b1 r2 b2
      (fun hh => h1 (List.mem_cons_of_mem _ hh))
      (fun hh => h2 (List.mem_cons_of_mem _ hh)) ht
    exact ⟨by rw [hc, ha], hb⟩

/-- Splitting a concatenation at the last underscore. -/
theorem underscore_split_right {d1 s1 d2 s2 : JStr} (h1 : '_' ∉ s1)
    (h2 : '_' ∉ s2) (h : d1 ++ '_' :: s1 = d2 ++ '_' :: s2) :
    d1 = d2 ∧ s1 = s2 := by
  have hr := congrArg List.reverse h
  simp only [List.reverse_append, List.reverse_cons, List.append_assoc,
    List.singleton_append] at hr
  obtain ⟨ha, hb⟩ := underscore_split s1.reverse d1.reverse s2.reverse d2.reverse
    (by simpa using h1) (by simpa using h2) hr
  constructor
  · have := congrArg List.reverse hb
    simpa using this
  · have := congrArg List.reverse ha
    simpa using this

theorem natDigits_no_underscore (n : ℕ) : '_' ∉ natDigits n := by
  intro hmem
  have := natDigits_chars n _ hmem
  revert this
  decide

theorem intStr_no_underscore (z : ℤ) : '_' ∉ intStr z := by
  unfold intStr
  split
  · intro hmem
    rcases List.mem_cons.mp hmem with h | h
    · exact absurd h (by decide)
    · exact natDigits_no_underscore _ h
  · exact natDigits_no_underscore _

theorem qToString_no_underscore (q : ℚ) : '_' ∉ qToString q := by
  unfold qToString
  split
  · exact intStr_no_underscore _
  · split
    · intro hmem
      rcases List.mem_append.mp hmem with h | h
      · rcases List.mem_append.mp h with h | h
        · revert h
          split
          · intro h
            exact absurd (List.mem_singleton.mp h) (by decide)
          · intro h
            cases h
        · exact natDigits_no_underscore _ h
      · rcases List.mem_cons.mp h with h | h
        · exact absurd h (by decide)
        · rcases List.mem_append.mp h with h | h
          · exact absurd (List.eq_of_mem_replicate h) (by decide)
          · exact natDigits_no_underscore _ h
    · intro hmem
      rcases List.mem_append.mp hmem with h | h
      · exact intStr_no_underscore _ h
      · rcases List.mem_cons.mp h with h | h
        · exact absurd h (by decide)
        · exact natDigits_no_underscore _ h

theorem intStr_inj {z1 z2 : ℤ} (h : intStr z1 = intStr z2) : z1 = z2 := by
  have hhead : ∀ n : ℕ, '-' ∉ natDigits n := by
    intro n hm
    have := natDigits_chars n _ hm
    revert this
    decide
  unfold intStr at h
  split at h <;> split at h
  · injection h with h1 h2
    have := natDigits_inj _ _ h2
    omega
  · exact absurd (h ▸ List.mem_cons_self '-' (natDigits z1.natAbs)) (hhead z2.natAbs)
  · exact absurd (h.symm ▸ List.mem_cons_self '-' (natDigits z2.natAbs)) (hhead z1.natAbs)
  · have := natDigits_inj _ _ h
    omega

theorem qToString_int_inj {q1 q2 : ℚ} (h1 : q1.den = 1) (h2 : q2.den = 1)
    (h : qToString q1 = qToString q2) : q1 = q2 := by
  unfold qToString at h
  rw [if_pos h1, if_pos h2] at h
  have hn := intStr_inj h
  have e1 := (Rat.den_eq_one_iff q1).mp h1
  have e2 := (Rat.den_eq_one_iff q2).mp h2
  rw [← e1, ← e2, hn]

theorem mdStr_no_underscore (m : MetricId) : '_' ∉ mdStr m := by
  cases m <;> decide

theorem mdStr_inj (m1 m2 : MetricId) (h : mdStr m1 = mdStr m2) : m1 = m2 := by
  cases m1 <;> cases m2 <;> first | rfl | exact absurd h (by decide)

theorem updOr_keys {α β : Type} [DecidableEq α] (k : α) (f : β → β) (d : β) :
    ∀ l : List (α × β), (updOr k f d l).map Prod.fst =
      if k ∈ l.map Prod.fst then l.map Prod.fst else l.map Prod.fst ++ [k]
  | [] => by simp [updOr]
  | (k', v) :: rest => by
    by_cases hk : k' = k
    · subst hk
      simp [updOr]
    · have hstep : updOr k f d ((k', v) :: rest) = (k', v) :: updOr k f d rest := by
        simp only [updOr, if_neg hk]
      rw [hstep, List.map_cons, List.map_cons, updOr_keys k f d rest]
      by_cases hm : k ∈ rest.map Prod.fst
      · rw [if_pos hm, if_pos (List.mem_cons_of_mem k' hm)]
      · have hni : ¬ k ∈ k' :: rest.map Prod.fst := by
          rw [List.mem_cons]
          push_neg
          exact ⟨fun h => hk h.symm, hm⟩
        rw [if_neg hm, if_neg hni, List.cons_append]

theorem updOr_keys_nodup {α β : Type} [DecidableEq α] {k : α} {f : β → β} {d : β}
    {l : List (α × β)} (h : (l.map Prod.fst).Nodup) :
    ((updOr k f d l).map Prod.fst).Nodup := by
  rw [updOr_keys]
  split
  · exact h
  · rename_i hm
    refine List.Nodup.append h (List.nodup_singleton k) ?_
    intro a ha hb
    rw [List.mem_singleton] at hb
    subst hb
    exact hm ha

theorem mem_updOr {α β : Type} [DecidableEq α] {k : α} {f : β → β} {d : β}
    {g : α × β} :
    ∀ {l : List (α × β)}, g ∈ updOr k f d l → g ∈ l ∨ g.1 = k := by
  intro l
  induction l with
  | nil =>
    intro h
    unfold updOr at h
    rw [List.mem_singleton] at h
    subst h
    exact Or.inr rfl
  | cons p rest ih =>
    intro h
    unfold updOr at h
    split at h
    · rcases List.mem_cons.mp h with rfl | hm
      · rename_i hkk
        exact Or.inr hkk
      · exact Or.inl (List.mem_cons_of_mem _ hm)
    · rcases List.mem_cons.mp h with rfl | hm
      · exact Or.inl (List.mem_cons_self _ _)
      · rcases ih hm with h' | h'
        · exact Or.inl (List.mem_cons_of_mem _ h')
        · exact Or.inr h'

theorem updOr_values {α β : Type} [DecidableEq α] (P : β → Prop) {k : α}
    {f : β → β} {d : β} (hf : ∀ v, P v → P (f v)) (hd : P d) :
    ∀ {l : List (α × β)}, (∀ g ∈ l, P g.2) → ∀ g ∈ updOr k f d l, P g.2 := by
  intro l
  induction l with
  | nil =>
    intro _ g hg
    unfold updOr at hg
    rw [List.mem_singleton] at hg
    subst hg
    exact hd
  | cons p rest ih =>
    intro hl g hg
    unfold updOr at hg
    split at hg
    · rcases List.mem_cons.mp hg with rfl | hm
      · exact hf p.2 (hl p (List.mem_cons_self _ _))
      · exact hl g (List.mem_cons_of_mem _ hm)
    · rcases List.mem_cons.mp hg with rfl | hm
      · exact hl _ (List.mem_cons_self _ _)
      · exact ih (fun g' hg' => hl g' (List.mem_cons_of_mem _ hg')) g hm

/-- A Google Fit blood-pressure data point of 1970-01-02 with systolic 120
and diastolic 80. -/
def c10P1 : DataPoint :=
  ⟨js "com.google.blood_pressure", some 86400000000000, none,
   [⟨some 120, none⟩, ⟨some 80, none⟩]⟩

/-- A second reading of the same date with the same systolic value but
diastolic 75. -/
def c10P2 : DataPoint :=
  ⟨js "com.google.blood_pressure", some 86400000000000, none,
   [⟨some 120, none⟩, ⟨some 75, none⟩]⟩

/-- A parsed Google Fit takeout holding both readings in one data file. -/
def c10Docs : List (JStr × List DataPoint) :=
  [(js "takeout/fit/all data/raw.json", [c10P1, c10P2])]

/-- The two entries `parseGF` builds from `c10Docs`. -/
def c10E1 : HEntry :=
  ⟨js "gf_bp_1970-01-02_120", .bp, 120, some 80, js "1970-01-02", js "Google Fit"⟩

/-- The second entry: distinct from `c10E1` (diastolic 75), same id. -/
def c10E2 : HEntry :=
  ⟨js "gf_bp_1970-01-02_120", .bp, 120, some 75, js "1970-01-02", js "Google Fit"⟩

/-- C10, counterexample: a successful Google Fit import can return two
distinct entries with the same id.  Two same-date blood-pressure readings
whose systolic values agree produce the ids `gf_bp_${date}_${sys}` twice,
because the id does not include the diastolic value or a counter. -/
theorem C10_duplicate_gf_ids :
    parseGFDocs c10Docs = .ok [c10E1, c10E2] ∧ c10E1 ≠ c10E2 ∧
      ¬ (([c10E1, c10E2].map HEntry.id).Nodup) := by
  refine ⟨by with_unfolding_all rfl, by with_unfolding_all decide,
    by with_unfolding_all decide⟩

/-- `Math.round` always yields an integer. -/
theorem round0_den (x : ℚ) : (round0 x).den = 1 := by
  unfold round0
  exact Rat.den_intCast _

/-- The invariant maintained by the Apple Health record pass: the
systolic/diastolic maps and `byMD` have pairwise-distinct keys (as JS
objects they cannot have duplicate properties), the per-metric date maps
likewise, and `byMD` never holds the blood-pressure key during the pass. -/
structure AHWF (st : AHState) : Prop where
  bpSnd : (st.bpS.map Prod.fst).Nodup
  bpDnd : (st.bpD.map Prod.fst).Nodup
  keys : (st.byMD.map Prod.fst).Nodup
  inner : ∀ g ∈ st.byMD, (g.2.map Prod.fst).Nodup
  nobp : ∀ g ∈ st.byMD, g.1 ≠ MetricId.bp

theorem upsert_keys_nodup {α β : Type} [DecidableEq α] {k : α} {v : β}
    {l : List (α × β)} (h : (l.map Prod.fst).Nodup) :
    ((upsert k v l).map Prod.fst).Nodup := by
  unfold upsert
  exact updOr_keys_nodup h

theorem AHWF_pushMD {st : AHState} (h : AHWF st) {mid : MetricId}
    (hmid : mid ≠ MetricId.bp) (date : JStr) (v : ℚ) :
    AHWF { st with byMD := pushMD mid date v st.byMD } := by
  refine ⟨h.bpSnd, h.bpDnd, ?_, ?_, ?_⟩
  · exact updOr_keys_nodup h.keys
  · intro g hg
    simp only [pushMD] at hg
    exact updOr_values (fun inner => ((inner.map Prod.fst).Nodup))
      (fun v' hv' => updOr_keys_nodup hv') (by simp) h.inner g hg
  · intro g hg
    simp only [pushMD] at hg
    rcases mem_updOr hg with h' | h'
    · exact h.nobp g h'
    · rw [h']
      exact hmid

theorem AHWF_procRecord {st : AHState} (h : AHWF st) (rec : JStr) :
    AHWF (procRecord st rec) := by
  unfold procRecord
  split
  · exact h
  · simp only []
    split
    · exact h
    · split
      · exact h
      · split
        · exact ⟨upsert_keys_nodup h.bpSnd, h.bpDnd, h.keys, h.inner, h.nobp⟩
        · exact ⟨h.bpSnd, upsert_keys_nodup h.bpDnd, h.keys, h.inner, h.nobp⟩
        · exact AHWF_pushMD h (by decide) _ _
        · exact AHWF_pushMD h (by decide) _ _
        · exact AHWF_pushMD h (by decide) _ _
        · exact AHWF_pushMD h (by decide) _ _

theorem AHWF_foldl (l : List JStr) : ∀ {st : AHState}, AHWF st →
    AHWF (l.foldl procRecord st) := by
  induction l with
  | nil => intro st h; exact h
  | cons r rest ih => intro st h; exact ih (AHWF_procRecord h r)

theorem AHWF_proc {st : AHState} (h : AHWF st) (buf : JStr) :
    AHWF (proc st buf).1 :=
  AHWF_foldl _ h

theorem AHWF_chunkStep {s : AHStream} (h : AHWF s.st) (chunk : JStr) :
    AHWF (chunkStep s chunk).st :=
  AHWF_proc h _

theorem AHWF_initAH : AHWF initAH :=
  ⟨List.nodup_nil, List.nodup_nil, List.nodup_nil,
   fun g hg => absurd hg (List.not_mem_nil g),
   fun g hg => absurd hg (List.not_mem_nil g)⟩

theorem AHWF_runChunked (chunks : List JStr) : AHWF (runChunked chunks) := by
  unfold runChunked
  have key : ∀ (l : List JStr) (s : AHStream), AHWF s.st →
      AHWF (l.foldl chunkStep s).st := by
    intro l
    induction l with
    | nil => intro s h; exact h
    | cons c rest ih => intro s h; exact ih _ (AHWF_chunkStep h c)
  exact key chunks ⟨initAH, []⟩ AHWF_initAH

/-- The invariant maintained by the Google Fit point pass: distinct keys
everywhere, no blood-pressure group in `byMD`, and every stored systolic
value is an integer (it went through `Math.round`). -/
structure GFWF (st : GFState) : Prop where
  keys : (st.byMD.map Prod.fst).Nodup
  inner : ∀ g ∈ st.byMD, (g.2.map Prod.fst).Nodup
  nobp : ∀ g ∈ st.byMD, g.1 ≠ MetricId.bp
  bpKeys : (st.bpByDate.map Prod.fst).Nodup
  bpInt : ∀ dv ∈ st.bpByDate, ∀ r ∈ dv.2, r.sys.den = 1

theorem GFWF_procPoint {st : GFState} (h : GFWF st) (fname : JStr)
    (pt : DataPoint) : GFWF (procPoint fname st pt) := by
  unfold procPoint
  simp only []
  split
  · exact h
  · split
    · exact h
    · split
      · exact h
      · split
        · -- blood-pressure branch
          split
          · split
            · refine ⟨h.keys, h.inner, h.nobp, updOr_keys_nodup h.bpKeys, ?_⟩
              intro dv hdv r hr
              refine updOr_values (fun l => ∀ r' ∈ l, r'.sys.den = 1)
                ?_ ?_ h.bpInt dv hdv r hr
              · intro l hl r' hr'
                rcases List.mem_append.mp hr' with h' | h'
                · exact hl r' h'
                · rw [List.mem_singleton.mp h']
                  exact round0_den _
              · intro r' hr'
                rw [List.mem_singleton.mp hr']
                exact round0_den _
            · exact h
          · exact h
        · -- numeric branch: the guard supplies `mid ≠ .bp`
          rename_i hbp
          split
          · exact h
          · refine ⟨updOr_keys_nodup h.keys, ?_, ?_, h.bpKeys, h.bpInt⟩
            · intro g hg
              simp only [pushMD] at hg
              exact updOr_values (fun inner => ((inner.map Prod.fst).Nodup))
                (fun v' hv' => updOr_keys_nodup hv') (by simp) h.inner g hg
            · intro g hg
              simp only [pushMD] at hg
              rcases mem_updOr hg with h' | h'
              · exact h.nobp g h'
              · rw [h']
                exact hbp

theorem GFWF_gfStateOf (docs : List (JStr × List DataPoint)) :
    GFWF (gfStateOf docs) := by
  unfold gfStateOf
  have hpts : ∀ (pts : List DataPoint) (fname : JStr) (st : GFState), GFWF st →
      GFWF (pts.foldl (procPoint fname) st) := by
    intro pts
    induction pts with
    | nil => intro _ st h; exact h
    | cons p rest ih => intro fname st h; exact ih fname _ (GFWF_procPoint h fname p)
  have hdocs : ∀ (ds : List (JStr × List DataPoint)) (st : GFState), GFWF st →
      GFWF (ds.foldl (fun st doc => doc.2.foldl (procPoint doc.1) st) st) := by
    intro ds
    induction ds with
    | nil => intro st h; exact h
    | cons d rest ih => intro st h; exact ih _ (hpts d.2 d.1 st h)
  exact hdocs docs initGF ⟨List.nodup_nil,
    fun g hg => absurd hg (List.not_mem_nil g),
    fun g hg => absurd hg (List.not_mem_nil g), List.nodup_nil,
    fun dv hdv => absurd hdv (List.not_mem_nil dv)⟩

theorem map_flatMap_eq {α β γ : Type} (g : β → γ) (f : α → List β) :
    ∀ l : List α, (l.flatMap f).map g = l.flatMap (fun a => (f a).map g)
  | [] => rfl
  | a :: rest => by
    rw [List.flatMap_cons, List.flatMap_cons, List.map_append, map_flatMap_eq g f rest]

/-- The ids of the numeric Apple Health entries, grouped as built. -/
theorem ahNumericEntries_ids (st : AHState) :
    (ahNumericEntries st).map HEntry.id =
      st.byMD.flatMap (fun g =>
        g.2.map (fun dv => js "ah_" ++ mdStr g.1 ++ '_' :: dv.1)) := by
  unfold ahNumericEntries
  rw [map_flatMap_eq]
  congr 1
  funext g
  rw [List.map_map]
  rfl

/-- The ids of the numeric Google Fit entries, grouped as built. -/
theorem gfNumericEntries_ids (st : GFState) :
    (gfNumericEntries st).map HEntry.id =
      st.byMD.flatMap (fun g =>
        g.2.map (fun dv => js "gf_" ++ mdStr g.1 ++ '_' :: dv.1)) := by
  unfold gfNumericEntries
  rw [map_flatMap_eq]
  congr 1
  funext g
  rw [List.map_map]
  rfl

/-- A numeric id `pre + mdStr(mid) + "_" + date` determines metric and date. -/
theorem preNumId_inj (pre : JStr) (m1 : MetricId) (d1 : JStr) (m2 : MetricId)
    (d2 : JStr) (h : pre ++ mdStr m1 ++ '_' :: d1 = pre ++ mdStr m2 ++ '_' :: d2) :
    m1 = m2 ∧ d1 = d2 := by
  rw [List.append_assoc, List.append_assoc] at h
  have h' := List.append_cancel_left h
  obtain ⟨hm, hd⟩ := underscore_split _ _ _ _ (mdStr_no_underscore m1)
    (mdStr_no_underscore m2) h'
  exact ⟨mdStr_inj _ _ hm, hd⟩

/-- Distinct outer keys and distinct inner keys make the flattened ids
distinct, whenever the id function is injective in (key, date). -/
theorem flatMap_pairs_nodup {κ : Type} (idf : κ → JStr → JStr)
    (hinj : ∀ k1 d1 k2 d2, idf k1 d1 = idf k2 d2 → k1 = k2 ∧ d1 = d2) :
    ∀ (m : List (κ × List (JStr × List ℚ))), (m.map Prod.fst).Nodup →
      (∀ g ∈ m, (g.2.map Prod.fst).Nodup) →
      (m.flatMap (fun g => g.2.map (fun dv => idf g.1 dv.1))).Nodup
  | [], _, _ => List.nodup_nil
  | g :: rest, hkeys, hinner => by
    rw [List.flatMap_cons, List.nodup_append]
    rw [List.map_cons, List.nodup_cons] at hkeys
    obtain ⟨hknotin, hkrest⟩ := hkeys
    refine ⟨?_, flatMap_pairs_nodup idf hinj rest hkrest
      (fun g' hg' => hinner g' (List.mem_cons_of_mem _ hg')), ?_⟩
    · have hrw : (g.2.map (fun dv => idf g.1 dv.1)) =
          (g.2.map Prod.fst).map (idf g.1) := by
        rw [List.map_map]
        rfl
      rw [hrw]
      exact List.Nodup.map_on (fun x _ y _ hxy => (hinj g.1 x g.1 y hxy).2)
        (hinner g (List.mem_cons_self _ _))
    · intro x hx hx'
      obtain ⟨dv, hdv, rfl⟩ := List.mem_map.mp hx
      obtain ⟨g', hg', hx'⟩ := List.mem_flatMap.mp hx'
      obtain ⟨dv', hdv', heq⟩ := List.mem_map.mp hx'
      have hgg := (hinj g'.1 dv'.1 g.1 dv.1 heq).1
      exact hknotin (hgg ▸ List.mem_map.mpr ⟨g', hg', rfl⟩)

theorem ah_numeric_ids_nodup {st : AHState} (h : AHWF st) :
    ((ahNumericEntries st).map HEntry.id).Nodup := by
  rw [ahNumericEntries_ids]
  exact flatMap_pairs_nodup (fun m d => js "ah_" ++ mdStr m ++ '_' :: d)
    (preNumId_inj (js "ah_")) st.byMD h.keys h.inner

theorem gf_numeric_ids_nodup {st : GFState} (h : GFWF st) :
    ((gfNumericEntries st).map HEntry.id).Nodup := by
  rw [gfNumericEntries_ids]
  exact flatMap_pairs_nodup (fun m d => js "gf_" ++ mdStr m ++ '_' :: d)
    (preNumId_inj (js "gf_")) st.byMD h.keys h.inner

/-- A filterMap whose produced strings are `pre + key + "_" + tail` with an
underscore-free tail is duplicate-free when the keys are. -/
theorem filterMap_keyed_nodup {α : Type} (pre : JStr) (key : α → JStr)
    (g : α → Option JStr)
    (hkey : ∀ a s, g a = some s → ∃ t, '_' ∉ t ∧ s = pre ++ key a ++ '_' :: t) :
    ∀ l : List α, (l.map key).Nodup → (l.filterMap g).Nodup
  | [], _ => List.nodup_nil
  | a :: rest, h => by
    rw [List.map_cons, List.nodup_cons] at h
    obtain ⟨hk, hrest⟩ := h
    rw [List.filterMap_cons]
    cases hg : g a with
    | none => exact filterMap_keyed_nodup pre key g hkey rest hrest
    | some s =>
      rw [List.nodup_cons]
      refine ⟨?_, filterMap_keyed_nodup pre key g hkey rest hrest⟩
      intro hmem
      obtain ⟨a', ha', hga'⟩ := List.mem_filterMap.mp hmem
      obtain ⟨t, ht, hs⟩ := hkey a s hg
      obtain ⟨t', ht', hs'⟩ := hkey a' s hga'
      have hss : pre ++ key a ++ '_' :: t = pre ++ key a' ++ '_' :: t' := by
        rw [← hs, ← hs']
      obtain ⟨hkk, -⟩ := underscore_split_right ht ht' hss
      have hka : key a = key a' := List.append_cancel_left hkk
      exact hk (hka.symm ▸ List.mem_map.mpr ⟨a', ha', rfl⟩)

/-- A key-preserving filterMap keeps its key list a sublist of the input. -/
theorem filterMap_keys_sublist {β : Type} (f : JStr → Option (JStr × β))
    (hf : ∀ d p, f d = some p → p.1 = d) :
    ∀ l : List JStr, ((l.filterMap f).map Prod.fst).Sublist l
  | [] => List.Sublist.slnil
  | d :: rest => by
    rw [List.filterMap_cons]
    cases hfd : f d with
    | none => exact List.Sublist.cons d (filterMap_keys_sublist f hf rest)
    | some p =>
      rw [List.map_cons, hf d p hfd]
      exact List.Sublist.cons₂ d (filterMap_keys_sublist f hf rest)

/-- The joined date set has no duplicates (a JS `Set`). -/
theorem bpDates_nodup {st : AHState} (h : AHWF st) : (bpDates st).Nodup := by
  unfold bpDates
  simp only []
  rw [List.nodup_append]
  refine ⟨h.bpSnd, List.Nodup.filter _ h.bpDnd, ?_⟩
  intro d hd hdf
  have hni := (List.mem_filter.mp hdf).2
  rw [decide_eq_true_iff] at hni
  exact hni hd

theorem bpJoin_keys_nodup {st : AHState} (h : AHWF st) :
    ((bpJoin st).map Prod.fst).Nodup := by
  have hsub : ((bpJoin st).map Prod.fst).Sublist (bpDates st) := by
    unfold bpJoin
    apply filterMap_keys_sublist
    intro d p hp
    revert hp
    cases lookupA d st.bpS with
    | none => intro hp; cases hp
    | some sys =>
      simp only []
      split
      · intro hp
        injection hp with hp
        rw [← hp]
      · intro hp
        cases hp
  exact (bpDates_nodup h).sublist hsub

theorem ah_bp_ids_nodup {st : AHState} (h : AHWF st) :
    ((ahBpEntries st).map HEntry.id).Nodup := by
  unfold ahBpEntries
  rw [List.map_filterMap]
  refine filterMap_keyed_nodup (js "ah_bp_") Prod.fst _ ?_ (bpJoin st)
    (bpJoin_keys_nodup h)
  intro dr s hdr
  split at hdr
  · rw [Option.map_some'] at hdr
    injection hdr with hdr
    exact ⟨qToString dr.2.sys, qToString_no_underscore _, hdr.symm⟩
  · rw [Option.map_none'] at hdr
    cases hdr

/-- Within one date, readings with pairwise-distinct (integer) systolic
values yield pairwise-distinct Google Fit blood-pressure ids. -/
theorem gf_date_ids_nodup (d : JStr) :
    ∀ rs : List BPRead, ((rs.map BPRead.sys).Nodup) →
      (∀ r ∈ rs, r.sys.den = 1) →
      ((rs.filterMap (fun r => if r.sys ≠ 0 then
        some (js "gf_bp_" ++ d ++ '_' :: qToString r.sys) else none)).Nodup)
  | [], _, _ => List.nodup_nil
  | r :: rest, hnd, hden => by
    rw [List.map_cons, List.nodup_cons] at hnd
    obtain ⟨hnotin, hrest⟩ := hnd
    have htail := gf_date_ids_nodup d rest hrest
      (fun r' hr' => hden r' (List.mem_cons_of_mem _ hr'))
    by_cases hz : r.sys ≠ 0
    · have hfa : (fun r : BPRead => if r.sys ≠ 0 then
          some (js "gf_bp_" ++ d ++ '_' :: qToString r.sys) else none) r =
          some (js "gf_bp_" ++ d ++ '_' :: qToString r.sys) := by
        simp only []
        rw [if_pos hz]
      rw [@List.filterMap_cons_some _ _ (fun r : BPRead => if r.sys ≠ 0 then
        some (js "gf_bp_" ++ d ++ '_' :: qToString r.sys) else none) r rest _ hfa]
      rw [List.nodup_cons]
      refine ⟨?_, htail⟩
      intro hmem
      obtain ⟨r', hr', hfr'⟩ := List.mem_filterMap.mp hmem
      by_cases hz' : r'.sys ≠ 0
      · rw [if_pos hz'] at hfr'
        injection hfr' with hfr'
        rw [List.append_assoc, List.append_assoc] at hfr'
        have h1 := List.append_cancel_left hfr'
        have h2 := List.append_cancel_left h1
        injection h2 with _ h3
        have hre := qToString_int_inj (hden r' (List.mem_cons_of_mem _ hr'))
          (hden r (List.mem_cons_self _ _)) h3
        exact hnotin (hre ▸ List.mem_map.mpr ⟨r', hr', rfl⟩)
      · rw [if_neg hz'] at hfr'
        cases hfr'
    · have hfa : (fun r : BPRead => if r.sys ≠ 0 then
          some (js "gf_bp_" ++ d ++ '_' :: qToString r.sys) else none) r = none := by
        simp only []
        rw [if_neg hz]
      rw [@List.filterMap_cons_none _ _ (fun r : BPRead => if r.sys ≠ 0 then
        some (js "gf_bp_" ++ d ++ '_' :: qToString r.sys) else none) r rest hfa]
      exact htail

/-- The Google Fit blood-pressure ids are duplicate-free provided no date
holds two readings with the same rounded systolic value. -/
theorem gf_bp_ids_aux :
    ∀ (m : List (JStr × List BPRead)), (m.map Prod.fst).Nodup →
      (∀ dv ∈ m, ∀ r ∈ dv.2, r.sys.den = 1) →
      (∀ dv ∈ m, (dv.2.map BPRead.sys).Nodup) →
      ((m.flatMap (fun dv => dv.2.filterMap (fun r =>
        if r.sys ≠ 0 then
          some (js "gf_bp_" ++ dv.1 ++ '_' :: qToString r.sys)
        else none))).Nodup)
  | [], _, _, _ => List.nodup_nil
  | dv :: rest, hkeys, hint, hsys => by
    rw [List.flatMap_cons, List.nodup_append]
    rw [List.map_cons, List.nodup_cons] at hkeys
    obtain ⟨hknotin, hkrest⟩ := hkeys
    refine ⟨gf_date_ids_nodup dv.1 dv.2 (hsys dv (List.mem_cons_self _ _))
        (hint dv (List.mem_cons_self _ _)),
      gf_bp_ids_aux rest hkrest
        (fun d' hd' => hint d' (List.mem_cons_of_mem _ hd'))
        (fun d' hd' => hsys d' (List.mem_cons_of_mem _ hd')), ?_⟩
    intro s hs hs'
    obtain ⟨r, hr, hfr⟩ := List.mem_filterMap.mp hs
    obtain ⟨dv', hdv', hs''⟩ := List.mem_flatMap.mp hs'
    obtain ⟨r', hr', hfr'⟩ := List.mem_filterMap.mp hs''
    split at hfr
    · injection hfr with hfr
      split at hfr'
      · injection hfr' with hfr'
        rw [← hfr'] at hfr
        rw [List.append_assoc, List.append_assoc] at hfr
        have h1 := List.append_cancel_left hfr
        obtain ⟨hdd, -⟩ := underscore_split_right (qToString_no_underscore _)
          (qToString_no_underscore _) h1
        exact hknotin (hdd ▸ List.mem_map.mpr ⟨dv', hdv', rfl⟩)
      · cases hfr'
    · cases hfr

theorem gf_bp_ids_nodup {st : GFState} (h : GFWF st)
    (hsys : ∀ dv ∈ st.bpByDate, (dv.2.map BPRead.sys).Nodup) :
    ((gfBpEntries st).map HEntry.id).Nodup := by
  have hrw : (gfBpEntries st).map HEntry.id = st.bpByDate.flatMap (fun dv =>
      dv.2.filterMap (fun r => if r.sys ≠ 0 then
        some (js "gf_bp_" ++ dv.1 ++ '_' :: qToString r.sys) else none)) := by
    unfold gfBpEntries
    rw [map_flatMap_eq]
    congr 1
    funext dv
    rw [List.map_filterMap]
    congr 1
    funext r
    split
    · rfl
    · rfl
  rw [hrw]
  exact gf_bp_ids_aux st.bpByDate h.bpKeys h.bpInt hsys

/-- Every numeric Apple Health id names a metric group of `byMD`. -/
theorem mem_ah_numeric_ids {st : AHState} {s : JStr}
    (hs : s ∈ (ahNumericEntries st).map HEntry.id) :
    ∃ g d, g ∈ st.byMD ∧ s = js "ah_" ++ mdStr g.1 ++ '_' :: d := by
  rw [ahNumericEntries_ids] at hs
  obtain ⟨g, hg, hs⟩ := List.mem_flatMap.mp hs
  obtain ⟨dv, hdv, heq⟩ := List.mem_map.mp hs
  exact ⟨g, dv.1, hg, heq.symm⟩

/-- Every Apple Health blood-pressure id has the `ah_bp_` shape. -/
theorem mem_ah_bp_ids {st : AHState} {s : JStr}
    (hs : s ∈ (ahBpEntries st).map HEntry.id) :
    ∃ d q, s = js "ah_bp_" ++ d ++ '_' :: qToString q := by
  unfold ahBpEntries at hs
  rw [List.map_filterMap] at hs
  obtain ⟨dr, hdr, hg⟩ := List.mem_filterMap.mp hs
  split at hg
  · rw [Option.map_some'] at hg
    injection hg with hg
    exact ⟨dr.1, dr.2.sys, hg.symm⟩
  · rw [Option.map_none'] at hg
    cases hg

/-- Every numeric Google Fit id names a metric group of `byMD`. -/
theorem mem_gf_numeric_ids {st : GFState} {s : JStr}
    (hs : s ∈ (gfNumericEntries st).map HEntry.id) :
    ∃ g d, g ∈ st.byMD ∧ s = js "gf_" ++ mdStr g.1 ++ '_' :: d := by
  rw [gfNumericEntries_ids] at hs
  obtain ⟨g, hg, hs⟩ := List.mem_flatMap.mp hs
  obtain ⟨dv, hdv, heq⟩ := List.mem_map.mp hs
  exact ⟨g, dv.1, hg, heq.symm⟩

/-- Every Google Fit blood-pressure id has the `gf_bp_` shape. -/
theorem mem_gf_bp_ids {st : GFState} {s : JStr}
    (hs : s ∈ (gfBpEntries st).map HEntry.id) :
    ∃ d q, s = js "gf_bp_" ++ d ++ '_' :: qToString q := by
  unfold gfBpEntries at hs
  rw [map_flatMap_eq] at hs
  obtain ⟨dv, hdv, hs⟩ := List.mem_flatMap.mp hs
  rw [List.map_filterMap] at hs
  obtain ⟨r, hr, hg⟩ := List.mem_filterMap.mp hs
  split at hg
  · rw [Option.map_some'] at hg
    injection hg with hg
    exact ⟨dv.1, r.sys, hg.symm⟩
  · rw [Option.map_none'] at hg
    cases hg

/-- A numeric id (`pre + metric + "_" + date` with a non-bp metric) never
equals a blood-pressure id (`pre + "bp_" + date + "_" + sys`). -/
theorem num_bp_id_ne (pre : JStr) (m : MetricId) (hm : m ≠ MetricId.bp)
    (d d' : JStr) (q : ℚ)
    (h : pre ++ mdStr m ++ '_' :: d = pre ++ js "bp" ++ '_' :: (d' ++ '_' :: qToString q)) :
    False := by
  rw [List.append_assoc, List.append_assoc] at h
  have h' := List.append_cancel_left h
  obtain ⟨hmm, -⟩ := underscore_split _ _ _ _ (mdStr_no_underscore m)
    (by decide) h'
  exact hm (mdStr_inj m .bp (by rw [hmm]; rfl))

theorem ahAssemble_ids_nodup {st : AHState} (h : AHWF st) :
    ((ahAssemble st).map HEntry.id).Nodup := by
  unfold ahAssemble
  rw [List.map_append, List.nodup_append]
  refine ⟨ah_numeric_ids_nodup h, ah_bp_ids_nodup h, ?_⟩
  intro s hs hs'
  obtain ⟨g, d, hg, heq⟩ := mem_ah_numeric_ids hs
  obtain ⟨d', q, heq'⟩ := mem_ah_bp_ids hs'
  have hre : js "ah_bp_" ++ d' ++ '_' :: qToString q =
      js "ah_" ++ js "bp" ++ '_' :: (d' ++ '_' :: qToString q) := by
    simp only [List.append_assoc]
    rfl
  rw [hre] at heq'
  exact num_bp_id_ne (js "ah_") g.1 (h.nobp g hg) d d' q (heq ▸ heq')

theorem gfAssemble_ids_nodup {st : GFState} (h : GFWF st)
    (hsys : ∀ dv ∈ st.bpByDate, (dv.2.map BPRead.sys).Nodup) :
    ((gfAssemble st).map HEntry.id).Nodup := by
  unfold gfAssemble
  rw [List.map_append, List.nodup_append]
  refine ⟨gf_numeric_ids_nodup h, gf_bp_ids_nodup h hsys, ?_⟩
  intro s hs hs'
  obtain ⟨g, d, hg, heq⟩ := mem_gf_numeric_ids hs
  obtain ⟨d', q, heq'⟩ := mem_gf_bp_ids hs'
  have hre : js "gf_bp_" ++ d' ++ '_' :: qToString q =
      js "gf_" ++ js "bp" ++ '_' :: (d' ++ '_' :: qToString q) := by
    simp only [List.append_assoc]
    rfl
  rw [hre] at heq'
  exact num_bp_id_ne (js "gf_") g.1 (h.nobp g hg) d d' q (heq ▸ heq')

/-- A successful Apple-variant text pass returns exactly the assembled
entries of the final state. -/
theorem parseAHText_ok {text : JStr} {es : List HEntry}
    (h : parseAHText text = .ok es) : es = ahAssemble (proc initAH text).1 := by
  unfold parseAHText ahResult at h
  simp only [] at h
  split at h
  · cases h
  · injection h with h
    exact h.symm

theorem parseAHChunked_ok {chunks : List JStr} {es : List HEntry}
    (h : parseAHChunked chunks = .ok es) : es = ahAssemble (runChunked chunks) := by
  unfold parseAHChunked ahResult at h
  simp only [] at h
  split at h
  · cases h
  · injection h with h
    exact h.symm

theorem parseGFDocs_ok {docs : List (JStr × List DataPoint)} {es : List HEntry}
    (h : parseGFDocs docs = .ok es) : es = gfAssemble (gfStateOf docs) := by
  unfold parseGFDocs gfResult at h
  simp only [] at h
  split at h
  · cases h
  · injection h with h
    exact h.symm

/-- Every Apple-variant entry id starts with `ah_`. -/
theorem ah_id_shape {st : AHState} {e : HEntry} (he : e ∈ ahAssemble st) :
    ∃ t, e.id = 'a' :: 'h' :: '_' :: t := by
  have hs : e.id ∈ (ahAssemble st).map HEntry.id := List.mem_map.mpr ⟨e, he, rfl⟩
  unfold ahAssemble at hs
  rw [List.map_append] at hs
  rcases List.mem_append.mp hs with h | h
  · obtain ⟨g, d, hg, heq⟩ := mem_ah_numeric_ids h
    exact ⟨mdStr g.1 ++ '_' :: d, by rw [heq]; rfl⟩
  · obtain ⟨d', q, heq⟩ := mem_ah_bp_ids h
    exact ⟨'b' :: 'p' :: '_' :: (d' ++ '_' :: qToString q), by rw [heq]; rfl⟩

/-- Every Google Fit entry id starts with `gf_`. -/
theorem gf_id_shape {st : GFState} {e : HEntry} (he : e ∈ gfAssemble st) :
    ∃ t, e.id = 'g' :: 'f' :: '_' :: t := by
  have hs : e.id ∈ (gfAssemble st).map HEntry.id := List.mem_map.mpr ⟨e, he, rfl⟩
  unfold gfAssemble at hs
  rw [List.map_append] at hs
  rcases List.mem_append.mp hs with h | h
  · obtain ⟨g, d, hg, heq⟩ := mem_gf_numeric_ids h
    exact ⟨mdStr g.1 ++ '_' :: d, by rw [heq]; rfl⟩
  · obtain ⟨d', q, heq⟩ := mem_gf_bp_ids h
    exact ⟨'b' :: 'p' :: '_' :: (d' ++ '_' :: qToString q), by rw [heq]; rfl⟩

/-- The decimal string of a manual id starts with a digit. -/
theorem natDigits_head (t : ℕ) : ∃ k r, k < 10 ∧ natDigits t = digitChar k :: r := by
  induction t using Nat.strong_induction_on with
  | _ t ih =>
    rw [natDigits_eq]
    by_cases h : t < 10
    · rw [if_pos h]
      exact ⟨t, [], h, rfl⟩
    · rw [if_neg h]
      obtain ⟨k, r, hk, hr⟩ := ih (t / 10) (Nat.div_lt_self (by omega) (by omega))
      exact ⟨k, r ++ [digitChar (t % 10)], hk, by rw [hr]; rfl⟩

theorem digitChar_ne_alpha (k : ℕ) : digitChar k ≠ 'a' ∧ digitChar k ≠ 'g' := by
  unfold digitChar
  split_ifs <;> exact ⟨by decide, by decide⟩

/-- A Google Fit takeout with a single blood-pressure reading. -/
def c10WDocs : List (JStr × List DataPoint) :=
  [(js "takeout/fit/all data/raw.json", [c10P1])]

/-- C10: for every successful import the returned entry ids are pairwise
distinct — unconditionally for the Apple variant (whole-text and chunked
passes), and for the Google Fit variant provided no date holds two
blood-pressure readings with the same rounded systolic value (without that
proviso the ids collide, as `C10_duplicate_gf_ids` shows); moreover Apple
ids (prefix `ah_`), Google Fit ids (prefix `gf_`) and manual ids (decimal
`Date.now()` strings) never collide across sources. -/
theorem C10_entry_ids_unique :
    (∀ text es, parseAHText text = Except.ok es → (es.map HEntry.id).Nodup) ∧
    (∀ chunks es, parseAHChunked chunks = Except.ok es →
      (es.map HEntry.id).Nodup) ∧
    (∀ docs es, parseGFDocs docs = Except.ok es →
      (∀ dv ∈ (gfStateOf docs).bpByDate, (dv.2.map BPRead.sys).Nodup) →
      (es.map HEntry.id).Nodup) ∧
    (∀ text es docs es', parseAHText text = Except.ok es →
      parseGFDocs docs = Except.ok es' →
      ∀ e ∈ es, ∀ e' ∈ es', e.id ≠ e'.id) ∧
    (∀ t text es, parseAHText text = Except.ok es →
      ∀ e ∈ es, manualId t ≠ e.id) ∧
    (∀ t docs es, parseGFDocs docs = Except.ok es →
      ∀ e ∈ es, manualId t ≠ e.id) := by
  refine ⟨?_, ?_, ?_, ?_, ?_, ?_⟩
  · intro text es h
    rw [parseAHText_ok h]
    exact ahAssemble_ids_nodup (AHWF_proc AHWF_initAH text)
  · intro chunks es h
    rw [parseAHChunked_ok h]
    exact ahAssemble_ids_nodup (AHWF_runChunked chunks)
  · intro docs es h hsys
    rw [parseGFDocs_ok h]
    exact gfAssemble_ids_nodup (GFWF_gfStateOf docs) hsys
  · intro text es docs es' h h' e he e' he'
    rw [parseAHText_ok h] at he
    rw [parseGFDocs_ok h'] at he'
    obtain ⟨t1, h1⟩ := ah_id_shape he
    obtain ⟨t2, h2⟩ := gf_id_shape he'
    rw [h1, h2]
    intro hcon
    injection hcon with hc _
    exact absurd hc (by decide)
  · intro t text es h e he
    rw [parseAHText_ok h] at he
    obtain ⟨tl, htl⟩ := ah_id_shape he
    obtain ⟨k, r, hk, hr⟩ := natDigits_head t
    rw [htl]
    unfold manualId
    rw [hr]
    intro hcon
    injection hcon with h1 _
    exact (digitChar_ne_alpha k).1 h1
  · intro t docs es h e he
    rw [parseGFDocs_ok h] at he
    obtain ⟨tl, htl⟩ := gf_id_shape he
    obtain ⟨k, r, hk, hr⟩ := natDigits_head t
    rw [htl]
    unfold manualId
    rw [hr]
    intro hcon
    injection hcon with h1 _
    exact (digitChar_ne_alpha k).2 h1

/-- C10, witness: the uniqueness theorem applied to a concrete Apple
Health import (whole and chunked), to a concrete Google Fit import, and
to a concrete manual-entry timestamp. -/
theorem C10_entry_ids_unique_witness :
    (([c1Entry].map HEntry.id).Nodup) ∧
    (([c1Entry].map HEntry.id).Nodup) ∧
    (([c10E1].map HEntry.id).Nodup) ∧
    (c1Entry.id ≠ c10E1.id) ∧
    (manualId 1700000000000 ≠ c1Entry.id) ∧
    (manualId 1700000000000 ≠ c10E1.id) :=
  ⟨C10_entry_ids_unique.1 c1Text [c1Entry] (by with_unfolding_all rfl),
   C10_entry_ids_unique.2.1 [c1Text] [c1Entry] (by with_unfolding_all rfl),
   C10_entry_ids_unique.2.2.1 c10WDocs [c10E1] (by with_unfolding_all rfl)
     (by with_unfolding_all decide),
   C10_entry_ids_unique.2.2.2.1 c1Text [c1Entry] c10WDocs [c10E1]
     (by with_unfolding_all rfl) (by with_unfolding_all rfl)
     c1Entry (List.mem_singleton.mpr rfl) c10E1 (List.mem_singleton.mpr rfl),
   C10_entry_ids_unique.2.2.2.2.1 1700000000000 c1Text [c1Entry]
     (by with_unfolding_all rfl) c1Entry (List.mem_singleton.mpr rfl),
   C10_entry_ids_unique.2.2.2.2.2 1700000000000 c10WDocs [c10E1]
     (by with_unfolding_all rfl) c10E1 (List.mem_singleton.mpr rfl)⟩

end BioAge
